import Mathlib

/-!
Verification development for the rankpublic job-queue service.

The subject is the Durable Object class JobQueue (src/unnamed/part_001,
lines 117-506): a single-writer job store over a SQLite table, exposing
/enqueue, /dequeue, /complete, /fail, /purge, /get, /stats and /list
handlers.  Every handler of that class is embedded below as a pure
function on an explicit store state (a list of rows in rowid/insertion
order), together with the JS host functions the handlers use
(JSON.stringify / JSON.parse, btoa / atob composed with the UTF-8
escape idiom, String() coercion).

Modelling conventions:
- JS numbers are modelled exactly (integers as Int, JSON numbers as ℚ);
  IEEE-754 rounding and float formatting of non-integers are out of
  scope (no claim depends on them; the decimal printer truncates a
  non-terminating expansion at 40 digits where JS would round).
- JS strings are modelled as Lean strings, i.e. sequences of Unicode
  scalar values; lone UTF-16 surrogates (on which encodeURIComponent
  throws) are not representable, and the JSON parser rejects \uXXXX
  surrogate escapes rather than pairing them.
- SQLite TEXT comparison (BINARY collation, byte-wise memcmp of UTF-8)
  is modelled as lexicographic comparison of code points, which orders
  identically.
- The SQL in /dequeue orders by createdAt only, with no further sort
  key; ties are therefore resolved by the table scan, i.e. by rowid
  (insertion) order, which is how the selection below resolves them.
-/

namespace RankPublic

/-! ## JSON values (results of JSON.parse / inputs of JSON.stringify) -/

inductive Json where
  | null
  | bool (b : Bool)
  | num (q : ℚ)
  | str (s : String)
  | arr (elems : List Json)
  | obj (members : List (String × Json))

/-- Math.trunc on a rational: rounding toward zero. -/
def jsTrunc (q : ℚ) : Int := Int.tdiv q.num (q.den : Int)

/-- JS property access v.k for a parsed JSON value: a lookup on objects
(last member wins, as JSON.parse keeps the last duplicate key) and
undefined (none) on every other value. -/
def jsGetField (v : Json) (k : String) : Option Json :=
  match v with
  | Json.obj ms => ((ms.filter (fun m => m.1 == k)).getLast?).map (fun m => m.2)
  | _ => none

/-! ## Decimal printing (digits of JSON.stringify / String() output) -/

def digitChar (n : Nat) : Char := Char.ofNat (48 + n)

def natDigitsAux : Nat → Nat → List Char
  | 0, _ => []
  | fuel + 1, n => if n < 10 then [digitChar n] else natDigitsAux fuel (n / 10) ++ [digitChar (n % 10)]

def natDigits (n : Nat) : List Char := natDigitsAux (n + 1) n

def intDigits (n : Int) : List Char :=
  if n < 0 then '-' :: natDigits n.natAbs else natDigits n.natAbs

/-- Decimal digits of the fractional remainder rem/den, by long division;
stops when the remainder vanishes, after at most fuel digits. -/
def fracDigits : Nat → Nat → Nat → List Char
  | 0, _, _ => []
  | _, 0, _ => []
  | fuel + 1, rem, den => digitChar (rem * 10 / den) :: fracDigits fuel (rem * 10 % den) den

/-- Decimal notation of a JSON number as JS prints it: integers without a
decimal point, other values with one (non-terminating expansions are
truncated at 40 digits; JS float formatting never needs more than 17). -/
def printNumQ (q : ℚ) : List Char :=
  if q.den = 1 then intDigits q.num
  else
    let sign : List Char := if q.num < 0 then ['-'] else []
    let a := q.num.natAbs
    sign ++ natDigits (a / q.den) ++ '.' :: fracDigits 40 (a % q.den) q.den

/-! ## String escaping (JSON.stringify) -/

def hexDigitChar (n : Nat) : Char := if n < 10 then Char.ofNat (48 + n) else Char.ofNat (87 + n)

def escapeChar (c : Char) : List Char :=
  if c = '"' then ['\\', '"']
  else if c = '\\' then ['\\', '\\']
  else if c = Char.ofNat 8 then ['\\', 'b']
  else if c = Char.ofNat 9 then ['\\', 't']
  else if c = Char.ofNat 10 then ['\\', 'n']
  else if c = Char.ofNat 12 then ['\\', 'f']
  else if c = Char.ofNat 13 then ['\\', 'r']
  else if c.toNat < 32 then ['\\', 'u', '0', '0', hexDigitChar (c.toNat / 16), hexDigitChar (c.toNat % 16)]
  else [c]

def escapeString (s : String) : List Char :=
  '"' :: s.data.flatMap escapeChar ++ ['"']

/-! ## JSON.stringify -/

mutual
def jsonPrint : Json → List Char
  | .null => "null".data
  | .bool true => "true".data
  | .bool false => "false".data
  | .num q => printNumQ q
  | .str s => escapeString s
  | .arr es => '[' :: printElems es ++ [']']
  | .obj ms => '{' :: printMembers ms ++ ['}']
def printElems : List Json → List Char
  | [] => []
  | [e] => jsonPrint e
  | e :: es => jsonPrint e ++ ',' :: printElems es
def printMembers : List (String × Json) → List Char
  | [] => []
  | [(k, v)] => escapeString k ++ ':' :: jsonPrint v
  | (k, v) :: ms => escapeString k ++ ':' :: jsonPrint v ++ ',' :: printMembers ms
end

def jsonStringify (v : Json) : String := String.mk (jsonPrint v)

/-! ## String() coercion (used by /fail on body.error) -/

mutual
def jsToString : Json → String
  | .null => "null"
  | .bool true => "true"
  | .bool false => "false"
  | .num q => String.mk (printNumQ q)
  | .str s => s
  | .arr es => String.mk (jsArrElems es)
  | .obj _ => "[object Object]"
def jsArrElems : List Json → List Char
  | [] => []
  | [Json.null] => []
  | [e] => (jsToString e).data
  | Json.null :: es => ',' :: jsArrElems es
  | e :: es => (jsToString e).data ++ ',' :: jsArrElems es
end

/-! ## JSON.parse -/

def isJsonWs (c : Char) : Bool := c == ' ' || c == Char.ofNat 9 || c == Char.ofNat 10 || c == Char.ofNat 13

def skipWs (cs : List Char) : List Char := cs.dropWhile isJsonWs

def isDigitChar (c : Char) : Bool := 48 ≤ c.toNat && c.toNat ≤ 57

def digitVal (c : Char) : Nat := c.toNat - 48

/-- Consumes leading decimal digits, returning (value, digit count, rest). -/
def digitsLoop : List Char → Nat → Nat → Nat × Nat × List Char
  | [], acc, cnt => (acc, cnt, [])
  | c :: cs, acc, cnt =>
    if isDigitChar c then digitsLoop cs (acc * 10 + digitVal c) (cnt + 1) else (acc, cnt, c :: cs)

/-- JSON number grammar: int part (a lone 0 or a nonzero-led digit run),
optional fraction, optional exponent.  Exact rational value. -/
def parseNumber (cs : List Char) : Option (ℚ × List Char) :=
  let neg := cs.head? = some '-'
  let cs1 := if neg then cs.tail else cs
  match cs1 with
  | [] => none
  | c :: _ =>
    if isDigitChar c then
      let ipr := if cs1.head? = some '0' then (0, cs1.tail)
                 else (let (v, _, r) := digitsLoop cs1 0 0; (v, r))
      let ip := ipr.1
      let cs2 := ipr.2
      let fr? : Option (Nat × Nat × List Char) :=
        if cs2.head? = some '.' then
          (match cs2.tail with
           | d :: _ =>
             if isDigitChar d then
               (let (fv, fc, r2) := digitsLoop cs2.tail 0 0
                some (fv, fc, r2))
             else none
           | [] => none)
        else some (0, 0, cs2)
      match fr? with
      | none => none
      | some (fv, fc, cs3) =>
        let ex? : Option (Int × List Char) :=
          if cs3.head? = some 'e' ∨ cs3.head? = some 'E' then
            (let r := cs3.tail
             let esign : Int := if r.head? = some '-' then -1 else 1
             let r2 := if r.head? = some '-' ∨ r.head? = some '+' then r.tail else r
             match r2 with
             | d :: _ =>
               if isDigitChar d then
                 (let (ev, _, r3) := digitsLoop r2 0 0
                  some (esign * (ev : Int), r3))
               else none
             | [] => none)
          else some (0, cs3)
        match ex? with
        | none => none
        | some (ev, cs4) =>
          let mantissa : Int := (if neg then -1 else 1) * ((ip * 10 ^ fc + fv : Nat) : Int)
          let etot : Int := ev - (fc : Int)
          let q : ℚ := if 0 ≤ etot then mkRat (mantissa * ((10 ^ etot.toNat : Nat) : Int)) 1
                       else mkRat mantissa (10 ^ (-etot).toNat)
          some (q, cs4)
    else none

def parseHexDigit (c : Char) : Option Nat :=
  let n := c.toNat
  if 48 ≤ n ∧ n ≤ 57 then some (n - 48)
  else if 97 ≤ n ∧ n ≤ 102 then some (n - 87)
  else if 65 ≤ n ∧ n ≤ 70 then some (n - 55)
  else none

/-- The named single-character escapes of JSON. -/
def escCode (c : Char) : Option Char :=
  if c = '"' then some '"'
  else if c = '\\' then some '\\'
  else if c = '/' then some '/'
  else if c = 'b' then some (Char.ofNat 8)
  else if c = 'f' then some (Char.ofNat 12)
  else if c = 'n' then some (Char.ofNat 10)
  else if c = 'r' then some (Char.ofNat 13)
  else if c = 't' then some (Char.ofNat 9)
  else none

/-- Body of a JSON string after the opening quote.  Rejects raw control
characters and unknown escapes; \uXXXX escapes of surrogates are
rejected (JS would pair them, but such code points have no Lean Char).
The fuel argument only drives the recursion; each step consumes at least
one character, so fuel = input length is always enough. -/
def strLoopAux : Nat → List Char → Option (List Char × List Char)
  | _, [] => none
  | 0, _ :: _ => none
  | fuel + 1, c :: rest =>
    if c = '"' then some ([], rest)
    else if c = '\\' then
      (if rest.length = 0 then none
       else
         (let e := rest.getD 0 '0'
          if e = 'u' then
            (if rest.length < 5 then none
             else
               match parseHexDigit (rest.getD 1 '0'), parseHexDigit (rest.getD 2 '0'),
                     parseHexDigit (rest.getD 3 '0'), parseHexDigit (rest.getD 4 '0') with
               | some a, some b, some cc, some d =>
                 (let n := a * 4096 + b * 256 + cc * 16 + d
                  if n < 55296 ∨ 57344 ≤ n then
                    (strLoopAux fuel (rest.drop 5)).map (fun p => (Char.ofNat n :: p.1, p.2))
                  else none)
               | _, _, _, _ => none)
          else
            match escCode e with
            | some ec => (strLoopAux fuel (rest.drop 1)).map (fun p => (ec :: p.1, p.2))
            | none => none))
    else if c.toNat < 32 then none
    else (strLoopAux fuel rest).map (fun p => (c :: p.1, p.2))

def strLoop (cs : List Char) : Option (List Char × List Char) := strLoopAux cs.length cs

def parseString (cs : List Char) : Option (String × List Char) :=
  if cs.head? = some '"' then (strLoop cs.tail).map (fun p => (String.mk p.1, p.2))
  else none

mutual
def parseValue : Nat → List Char → Option (Json × List Char)
  | 0, _ => none
  | fuel + 1, cs =>
    match skipWs cs with
    | [] => none
    | c :: rest =>
      if c = '{' then
        (if (skipWs rest).head? = some '}' then some (Json.obj [], (skipWs rest).tail)
         else (parseMembers fuel (skipWs rest)).map (fun p => (Json.obj p.1, p.2)))
      else if c = '[' then
        (if (skipWs rest).head? = some ']' then some (Json.arr [], (skipWs rest).tail)
         else (parseElems fuel (skipWs rest)).map (fun p => (Json.arr p.1, p.2)))
      else if c = '"' then (parseString (c :: rest)).map (fun p => (Json.str p.1, p.2))
      else if c = 't' then
        (match rest with
         | 'r' :: 'u' :: 'e' :: r => some (Json.bool true, r)
         | _ => none)
      else if c = 'f' then
        (match rest with
         | 'a' :: 'l' :: 's' :: 'e' :: r => some (Json.bool false, r)
         | _ => none)
      else if c = 'n' then
        (match rest with
         | 'u' :: 'l' :: 'l' :: r => some (Json.null, r)
         | _ => none)
      else (parseNumber (c :: rest)).map (fun p => (Json.num p.1, p.2))
def parseMembers : Nat → List Char → Option (List (String × Json) × List Char)
  | 0, _ => none
  | fuel + 1, cs =>
    match parseString (skipWs cs) with
    | none => none
    | some (k, r1) =>
      if (skipWs r1).head? = some ':' then
        (match parseValue fuel (skipWs r1).tail with
         | none => none
         | some (v, r3) =>
           if (skipWs r3).head? = some ',' then
             (parseMembers fuel (skipWs r3).tail).map (fun p => ((k, v) :: p.1, p.2))
           else if (skipWs r3).head? = some '}' then some ([(k, v)], (skipWs r3).tail)
           else none)
      else none
def parseElems : Nat → List Char → Option (List Json × List Char)
  | 0, _ => none
  | fuel + 1, cs =>
    match parseValue fuel cs with
    | none => none
    | some (v, r1) =>
      if (skipWs r1).head? = some ',' then
        (parseElems fuel (skipWs r1).tail).map (fun p => (v :: p.1, p.2))
      else if (skipWs r1).head? = some ']' then some ([v], (skipWs r1).tail)
      else none
end

def jsonParse (s : String) : Option Json :=
  match parseValue (s.data.length + 1) s.data with
  | some (v, rest) => if skipWs rest = [] then some v else none
  | none => none

/-! ## UTF-8 (the unescape(encodeURIComponent(.)) idiom and its inverse) -/

def utf8EncodeChar (c : Char) : List Nat :=
  let n := c.toNat
  if n < 128 then [n]
  else if n < 2048 then [192 + n / 64, 128 + n % 64]
  else if n < 65536 then [224 + n / 4096, 128 + n / 64 % 64, 128 + n % 64]
  else [240 + n / 262144, 128 + n / 4096 % 64, 128 + n / 64 % 64, 128 + n % 64]

def utf8Encode (cs : List Char) : List Nat := cs.flatMap utf8EncodeChar

/-- Strict UTF-8 decoding: rejects stray continuation bytes, overlong
encodings, surrogate code points and values beyond U+10FFFF, as
decodeURIComponent does (its URIError is caught by decodeCursor).  The
fuel argument only drives the recursion; each step consumes at least one
byte, so fuel = input length is always enough. -/
def utf8DecodeAux : Nat → List Nat → Option (List Char)
  | _, [] => some []
  | 0, _ :: _ => none
  | fuel + 1, b :: rest =>
    if b < 128 then (utf8DecodeAux fuel rest).map (fun cs => Char.ofNat b :: cs)
    else if b < 194 then none
    else if b < 224 then
      (let b2 := rest.getD 0 0
       if rest.length = 0 then none
       else if 128 ≤ b2 ∧ b2 < 192 then
         (utf8DecodeAux fuel (rest.drop 1)).map
           (fun cs => Char.ofNat ((b - 192) * 64 + (b2 - 128)) :: cs)
       else none)
    else if b < 240 then
      (let b2 := rest.getD 0 0
       let b3 := rest.getD 1 0
       if rest.length < 2 then none
       else if (128 ≤ b2 ∧ b2 < 192) ∧ (128 ≤ b3 ∧ b3 < 192) then
         (let n := (b - 224) * 4096 + (b2 - 128) * 64 + (b3 - 128)
          if 2048 ≤ n ∧ (n < 55296 ∨ 57344 ≤ n) then
            (utf8DecodeAux fuel (rest.drop 2)).map (fun cs => Char.ofNat n :: cs)
          else none)
       else none)
    else if b < 245 then
      (let b2 := rest.getD 0 0
       let b3 := rest.getD 1 0
       let b4 := rest.getD 2 0
       if rest.length < 3 then none
       else if (128 ≤ b2 ∧ b2 < 192) ∧ (128 ≤ b3 ∧ b3 < 192) ∧ (128 ≤ b4 ∧ b4 < 192) then
         (let n := (b - 240) * 262144 + (b2 - 128) * 4096 + (b3 - 128) * 64 + (b4 - 128)
          if 65536 ≤ n ∧ n < 1114112 then
            (utf8DecodeAux fuel (rest.drop 3)).map (fun cs => Char.ofNat n :: cs)
          else none)
       else none)
    else none

def utf8Decode (bs : List Nat) : Option (List Char) := utf8DecodeAux bs.length bs

/-! ## Base64 (btoa / atob) -/

def b64Alphabet : List Char :=
  "ABCDEFGHIJKLMNOPQRSTUVWXYZabcdefghijklmnopqrstuvwxyz0123456789+/".data

def b64Char (n : Nat) : Char := b64Alphabet.getD n 'A'

def b64ValAux : List Char → Nat → Char → Option Nat
  | [], _, _ => none
  | a :: as, i, c => if a = c then some i else b64ValAux as (i + 1) c

def b64Val (c : Char) : Option Nat := b64ValAux b64Alphabet 0 c

def b64Core : List Nat → List Char
  | [] => []
  | [a] => [b64Char (a / 4), b64Char (a % 4 * 16)]
  | [a, b] => [b64Char (a / 4), b64Char (a % 4 * 16 + b / 16), b64Char (b % 16 * 4)]
  | a :: b :: c :: rest =>
    b64Char (a / 4) :: b64Char (a % 4 * 16 + b / 16) :: b64Char (b % 16 * 4 + c / 64) ::
      b64Char (c % 64) :: b64Core rest

/-- btoa: canonical base64 with '=' padding. -/
def base64Encode (bs : List Nat) : List Char :=
  b64Core bs ++ (if bs.length % 3 = 1 then ['=', '='] else if bs.length % 3 = 2 then ['='] else [])

def b64DecodeCore : List Char → Option (List Nat)
  | [] => some []
  | c1 :: c2 :: c3 :: c4 :: rest =>
    (match b64Val c1, b64Val c2, b64Val c3, b64Val c4 with
     | some v1, some v2, some v3, some v4 =>
       (b64DecodeCore rest).map
         (fun bs => (v1 * 4 + v2 / 16) :: (v2 % 16 * 16 + v3 / 4) :: (v3 % 4 * 64 + v4) :: bs)
     | _, _, _, _ => none)
  | [c1, c2] =>
    (match b64Val c1, b64Val c2 with
     | some v1, some v2 => some [v1 * 4 + v2 / 16]
     | _, _ => none)
  | [c1, c2, c3] =>
    (match b64Val c1, b64Val c2, b64Val c3 with
     | some v1, some v2, some v3 => some [v1 * 4 + v2 / 16, v2 % 16 * 16 + v3 / 4]
     | _, _, _ => none)
  | [_] => none

/-- atob per forgiving-base64: strips up to two trailing '=' when the
length is a multiple of four, fails on a leftover length of one and on
any character outside the alphabet, and discards leftover bits. -/
def base64Decode (s : String) : Option (List Nat) :=
  let cs := s.data
  let body := if cs.length % 4 = 0 then
      (let r := cs.reverse
       (r.drop (Min.min 2 ((r.takeWhile (fun c => c = '=')).length))).reverse)
    else cs
  if body.length % 4 = 1 then none else b64DecodeCore body

/-! ## Cursor codec (src/unnamed/part_001 lines 74-86) -/

/-- encodeCursor: btoa(unescape(encodeURIComponent(JSON.stringify(obj)))),
i.e. base64 of the UTF-8 bytes of the JSON text. -/
def encodeCursor (v : Json) : String := String.mk (base64Encode (utf8Encode (jsonPrint v)))

/-- decodeCursor: null for an absent or empty cursor, otherwise
JSON.parse(decodeURIComponent(escape(atob(cursor)))) with every failure
caught to null. -/
def decodeCursor (cursor : Option String) : Option Json :=
  match cursor with
  | none => none
  | some cs =>
    if cs = "" then none
    else (base64Decode cs).bind (fun bytes => (utf8Decode bytes).bind (fun chars => jsonParse (String.mk chars)))

/-- The cursor pair actually built by encodeCursor callers in /list. -/
def cursorJson (sortAt : Int) (id : String) : Json :=
  Json.obj [("sortAt", Json.num (sortAt : ℚ)), ("id", Json.str id)]

/-! ## The jobs table (src/unnamed/part_001 lines 95-109 and 125-141) -/

/-- One row of the jobs table.  attempts and maxAttempts are NOT NULL
with defaults, so they are plain integers; the nullable columns are
Options.  type is TEXT (the enqueue handler only ever stores "crawl" or
"rank"). -/
structure JobRow where
  id : String
  type : String
  target : String
  createdAt : Int
  status : String
  updatedAt : Option Int
  leaseUntil : Option Int
  result : Option String
  error : Option String
  attempts : Int
  maxAttempts : Int
  nextRunAt : Option Int
  sortAt : Option Int
deriving Repr, DecidableEq

/-- The table in rowid (insertion) order, which is the order of a full
table scan. -/
abbrev Store := List JobRow

/-- SELECT ... WHERE id = ? LIMIT 1 (id is the primary key). -/
def jobById (s : Store) (i : String) : Option JobRow := s.find? (fun j => j.id == i)

/-! ## Small helpers of the worker module -/

/-- normalizeStatus (lines 111-115): only the four enum values survive;
everything else, the empty string included, becomes null. -/
def normalizeStatus (s : Option String) : Option String :=
  match s with
  | none => none
  | some v =>
    if v = "" then none
    else if v = "queued" ∨ v = "processing" ∨ v = "done" ∨ v = "failed" then some v
    else none

/-- clampInt (lines 60-66) on an already-numeric input; a non-number
(none) stays null.  Math.trunc of a float argument is outside the
integer model. -/
def clampInt (n : Option Int) (lo hi : Int) : Option Int :=
  match n with
  | none => none
  | some x => if x < lo then some lo else if x > hi then some hi else some x

/-- clampIntFromString (lines 68-72), on the parseInt result (none models
NaN): fallback for a non-number, then Math.max(min, Math.min(max, v)). -/
def clampIntFromString (n : Option Int) (fallback lo hi : Int) : Int :=
  Max.max lo (Min.min hi (n.getD fallback))

/-- The sortAt backfill (line 155), run at the top of every fetch:
UPDATE jobs SET sortAt = COALESCE(updatedAt, createdAt) WHERE sortAt IS NULL. -/
def backfill (s : Store) : Store :=
  s.map (fun j => if j.sortAt = none then { j with sortAt := some (j.updatedAt.getD j.createdAt) } else j)

/-! ## Responses -/

inductive Resp where
  | badRequest
  | notFound
  | insertError
  | okText
  | jobNull
  | leased (id type target : String) (createdAt leaseUntil : Int)
  | retried (attempts maxAttempts nextRunAt : Int)
  | exhausted (attempts maxAttempts : Int)
  | purged (beforeMs : Int) (deleted : Nat) (statsAfter : List (String × Nat))
  | gotJob (j : Option JobRow)
  | statsOut (stats : List (String × Nat))
  | listOut (items : List JobRow) (nextCursor : Option String)
deriving Repr, DecidableEq

/-! ## /enqueue (lines 333-364) -/

/-- The decoded request body of /enqueue.  A none field models an absent
field or one of the wrong runtime type, exactly what the handler's
typeof checks coerce away. -/
structure EnqueueBody where
  id : Option String
  type : Option String
  target : Option String
  createdAt : Option Int
  maxAttempts : Option Int
deriving Repr, DecidableEq

/-- The row INSERTed by /enqueue (lines 349-361): status queued,
updatedAt = sortAt = now, attempts 0, nextRunAt NULL; result, error and
leaseUntil take the column default NULL. -/
def freshJob (now : Int) (id ty target : String) (createdAt maxAttempts : Int) : JobRow :=
  { id := id, type := ty, target := target, createdAt := createdAt, status := "queued",
    updatedAt := some now, leaseUntil := none, result := none, error := none,
    attempts := 0, maxAttempts := maxAttempts, nextRunAt := none, sortAt := some now }

/-- /enqueue: validates the coerced fields, clamps maxAttempts to [1,10]
with default 3, and INSERTs.  A duplicate id violates the primary key:
the uncaught exception surfaces as an error response with no row
change. -/
def enqueueOp (now : Int) (b : EnqueueBody) (s : Store) : Store × Resp :=
  let idv := b.id.getD ""
  let tgt := b.target.getD ""
  let ty? := if b.type = some "crawl" ∨ b.type = some "rank" then b.type else none
  match ty?, b.createdAt with
  | some ty, some ca =>
    if idv = "" ∨ tgt = "" then (s, Resp.badRequest)
    else
      let ma := (clampInt b.maxAttempts 1 10).getD 3
      if s.any (fun j => j.id == idv) then (s, Resp.insertError)
      else (s ++ [freshJob now idv ty tgt ca ma], Resp.okText)
  | _, _ => (s, Resp.badRequest)

/-! ## /dequeue (lines 366-406) -/

def leaseMs : Int := 120000

/-- The eligibility predicate of the /dequeue SELECT (lines 376-386). -/
def eligible (now : Int) (j : JobRow) : Bool :=
  (j.status == "queued" && (match j.nextRunAt with | none => true | some t => t ≤ now))
  || (j.status == "processing" && (match j.leaseUntil with | none => false | some t => t < now))

/-- ORDER BY createdAt ASC LIMIT 1 over a scan in rowid order: the first
row attaining the minimal createdAt.  The SQL has no secondary sort
key, so ties keep scan (insertion) order. -/
def stableMinBy : List JobRow → Option JobRow
  | [] => none
  | j :: rest =>
    match stableMinBy rest with
    | none => some j
    | some b => if b.createdAt < j.createdAt then some b else some j

/-- /dequeue: selects the oldest eligible row, then UPDATEs it to
processing with leaseUntil = now + 120000, updatedAt = sortAt = now and
nextRunAt NULL (line 397), returning the selected row's projection. -/
def dequeueOp (now : Int) (s : Store) : Store × Resp :=
  match stableMinBy (s.filter (eligible now)) with
  | none => (s, Resp.jobNull)
  | some row =>
    (s.map (fun j => if j.id == row.id then
        { j with status := "processing", updatedAt := some now, sortAt := some now,
                 leaseUntil := some (now + leaseMs), nextRunAt := none } else j),
     Resp.leased row.id row.type row.target row.createdAt (now + leaseMs))

/-! ## /complete (lines 409-428) -/

/-- /complete: after the falsy-id check, one UPDATE ... WHERE id = ?
setting status done, updatedAt = sortAt = now, leaseUntil NULL, result =
JSON.stringify(body.result ?? null), error NULL.  The UPDATE does not
touch nextRunAt (line 418 lists no nextRunAt assignment).  Zero matched
rows still answer ok. -/
def completeOp (now : Int) (id : Option String) (result : Option Json) (s : Store) : Store × Resp :=
  match id with
  | none => (s, Resp.badRequest)
  | some i =>
    if i = "" then (s, Resp.badRequest)
    else
      let resultJson := jsonStringify (result.getD Json.null)
      (s.map (fun j => if j.id == i then
          { j with status := "done", updatedAt := some now, sortAt := some now,
                   leaseUntil := none, result := some resultJson, error := none } else j),
       Resp.okText)

/-! ## /fail (lines 431-502) -/

/-- String(body.error ?? "unknown") (line 436): absent and null both fall
to "unknown"; any other value is coerced by String(). -/
def failErrString (e : Option Json) : String :=
  match e with
  | none => "unknown"
  | some Json.null => "unknown"
  | some v => jsToString v

/-- The backoff schedule (lines 455-458). -/
def failBackoff (nextAttempts : Int) : Int :=
  if nextAttempts = 1 then 10000 else if nextAttempts = 2 then 60000 else 300000

/-- /fail: falsy-id check, row lookup (404 when absent), then either the
retry UPDATE (status queued, attempts+1, nextRunAt = now + backoff) when
attempts+1 < maxAttempts, or the terminal UPDATE (status failed,
nextRunAt NULL) otherwise.  No gate on the row's current status. -/
def failOp (now : Int) (id : Option String) (e : Option Json) (s : Store) : Store × Resp :=
  match id with
  | none => (s, Resp.badRequest)
  | some i =>
    if i = "" then (s, Resp.badRequest)
    else
      let err := failErrString e
      match jobById s i with
      | none => (s, Resp.notFound)
      | some row =>
        let nextAttempts := row.attempts + 1
        if nextAttempts < row.maxAttempts then
          let nextRunAt := now + failBackoff nextAttempts
          (s.map (fun j => if j.id == i then
              { j with status := "queued", updatedAt := some now, sortAt := some now,
                       leaseUntil := none, error := some err, attempts := nextAttempts,
                       nextRunAt := some nextRunAt } else j),
           Resp.retried nextAttempts row.maxAttempts nextRunAt)
        else
          (s.map (fun j => if j.id == i then
              { j with status := "failed", updatedAt := some now, sortAt := some now,
                       leaseUntil := none, error := some err, attempts := nextAttempts,
                       nextRunAt := none } else j),
           Resp.exhausted nextAttempts row.maxAttempts)

/-! ## /purge (lines 301-330), /get (162-191), /stats (194-205) -/

/-- The DELETE predicate of /purge: terminal status and sortAt < beforeMs
(a NULL sortAt compares as false in SQL). -/
def purgeMatch (beforeMs : Int) (j : JobRow) : Bool :=
  (j.status == "done" || j.status == "failed")
    && (match j.sortAt with | none => false | some v => v < beforeMs)

/-- Ascending-string comparison (SQLite BINARY collation: byte-wise
UTF-8 comparison, equivalently code-point lexicographic order). -/
def strLtCore : List Char → List Char → Bool
  | [], [] => false
  | [], _ :: _ => true
  | _ :: _, [] => false
  | a :: as, b :: bs =>
    if a.toNat < b.toNat then true
    else if b.toNat < a.toNat then false
    else strLtCore as bs

def strLtb (a b : String) : Bool := strLtCore a.data b.data

/-- Insertion into a sorted list: a lands before the first element b with
le a b. -/
def insertLe {α : Type} (le : α → α → Bool) (a : α) : List α → List α
  | [] => [a]
  | b :: bs => if le a b then a :: b :: bs else b :: insertLe le a bs

/-- Insertion sort.  SQL ORDER BY output is characterised up to the sort
relation; with the total keys used below the sorted list is unique, so
the choice of algorithm is immaterial. -/
def sortByLe {α : Type} (le : α → α → Bool) : List α → List α
  | [] => []
  | a :: as => insertLe le a (sortByLe le as)

/-- SELECT status, COUNT(*) GROUP BY status ORDER BY status ASC. -/
def statsOf (s : Store) : List (String × Nat) :=
  (sortByLe (fun a b => !strLtb b a) (s.map (fun j => j.status)).dedup).map
    (fun st => (st, s.countP (fun j => j.status == st)))

def purgeOp (beforeMs : Option Int) (s : Store) : Store × Resp :=
  match beforeMs with
  | none => (s, Resp.badRequest)
  | some b =>
    let s2 := s.filter (fun j => !purgeMatch b j)
    (s2, Resp.purged b (s.countP (purgeMatch b)) (statsOf s2))

/-- /get: falsy-id check, then a read-only point lookup.  The response
decoration (ISO strings, safeParseJson of result) is presentational and
not modelled. -/
def getOp (id : Option String) (s : Store) : Store × Resp :=
  match id with
  | none => (s, Resp.badRequest)
  | some i => if i = "" then (s, Resp.badRequest) else (s, Resp.gotJob (jobById s i))

def statsOp (s : Store) : Store × Resp := (s, Resp.statsOut (statsOf s))

/-! ## /list (lines 207-298) -/

/-- Lines 216-219: extraction of cursorSortAt (a finite number, truncated)
and cursorId (a string) from the decoded cursor; a falsy decoded value
short-circuits both to null. -/
def cursorFields (c : Option Json) : Option Int × Option String :=
  match c with
  | none => (none, none)
  | some v =>
    let truthy := match v with
      | Json.null => false
      | Json.bool b => b
      | Json.num q => q ≠ 0
      | Json.str s => s ≠ ""
      | _ => true
    if truthy then
      ((match jsGetField v "sortAt" with
        | some (Json.num q) => some (jsTrunc q)
        | _ => none),
       (match jsGetField v "id" with
        | some (Json.str s) => some s
        | _ => none))
    else (none, none)

/-- The strict keyset predicate of the /list WHERE clause:
sortAt < ? OR (sortAt = ? AND id < ?); a NULL sortAt fails both SQL
comparisons. -/
def keysetB (cs : Int) (cid : String) (j : JobRow) : Bool :=
  match j.sortAt with
  | none => false
  | some v => v < cs || (v == cs && strLtb j.id cid)

/-- The (sortAt, id) sort key of a row. -/
def rowKey (j : JobRow) : Option Int × String := (j.sortAt, j.id)

/-- Strict ascending order on sort keys: sortAt first (a NULL sortAt is
smallest, as SQLite sorts NULLs first ascending), then id in BINARY
collation. -/
def keyLtb : Option Int × String → Option Int × String → Bool
  | (none, i1), (none, i2) => strLtb i1 i2
  | (none, _), (some _, _) => true
  | (some _, _), (none, _) => false
  | (some v, i1), (some w, i2) => v < w || (v == w && strLtb i1 i2)

/-- The (sortAt DESC, id DESC) page order of /list as a non-strict Bool
relation: x may precede y iff x's key is not below y's. -/
def pageLe (x y : JobRow) : Bool := !keyLtb (rowKey x) (rowKey y)

/-- The effective cursor of /list: cursorSortAt and cursorId combined by
the branch condition cursorSortAt !== null && cursorId (lines 224 and
253) — an empty cursorId is falsy, so it disables the cursor. -/
def listCursor (cursorRaw : Option String) : Option (Int × String) :=
  match cursorFields (decodeCursor cursorRaw) with
  | (some cs, some cid) => if cid = "" then none else some (cs, cid)
  | _ => none

/-- /list: normalize the status filter, clamp the limit, decode the
cursor; then filter, sort, take, and derive nextCursor from the last
returned item (null on an empty page). -/
def listOp (statusRaw : Option String) (limitRaw : Option Int) (cursorRaw : Option String)
    (s : Store) : Store × Resp :=
  let status := normalizeStatus statusRaw
  let limit := clampIntFromString limitRaw 50 1 200
  let base := match status with
    | some st => s.filter (fun j => j.status == st)
    | none => s
  let filtered := match listCursor cursorRaw with
    | some c => base.filter (keysetB c.1 c.2)
    | none => base
  let rows := (sortByLe pageLe filtered).take limit.toNat
  let nextCursor := match rows.getLast? with
    | none => none
    | some last => some (encodeCursor (cursorJson (last.sortAt.getD (last.updatedAt.getD last.createdAt)) last.id))
  (s, Resp.listOut rows nextCursor)

/-- The status-filtered base relation of /list (the WHERE clause without
the keyset part). -/
def listBase (st : Option String) (s : Store) : Store :=
  match normalizeStatus st with
  | some stv => s.filter (fun j => j.status == stv)
  | none => s

/-! ## The request dispatcher and reachability -/

/-- One decoded request to the JobQueue object. -/
inductive Req where
  | enqueue (now : Int) (body : EnqueueBody)
  | dequeue (now : Int)
  | complete (now : Int) (id : Option String) (result : Option Json)
  | fail (now : Int) (id : Option String) (error : Option Json)
  | purge (beforeMs : Option Int)
  | get (id : Option String)
  | stats
  | list (status : Option String) (limit : Option Int) (cursor : Option String)

/-- JobQueue.fetch: every request first runs the schema upgrades and the
sortAt backfill (lines 125-160), then dispatches on the path. -/
def applyReq : Req → Store → Store × Resp
  | Req.enqueue now b, s => enqueueOp now b (backfill s)
  | Req.dequeue now, s => dequeueOp now (backfill s)
  | Req.complete now id r, s => completeOp now id r (backfill s)
  | Req.fail now id e, s => failOp now id e (backfill s)
  | Req.purge b, s => purgeOp b (backfill s)
  | Req.get id, s => getOp id (backfill s)
  | Req.stats, s => statsOp (backfill s)
  | Req.list st lim cur, s => listOp st lim cur (backfill s)

def stepStore (r : Req) (s : Store) : Store := (applyReq r s).1

/-- States reachable from the empty table by any request sequence. -/
inductive Reachable : Store → Prop where
  | empty : Reachable []
  | step (r : Req) {s : Store} : Reachable s → Reachable (stepStore r s)

/-- The store invariants reachability provides: primary-key uniqueness,
non-NULL sortAt, non-empty ids. -/
def GoodStore (s : Store) : Prop :=
  (s.map (fun j => j.id)).Nodup ∧ ∀ j ∈ s, j.sortAt ≠ none ∧ j.id ≠ ""

/-- Every failed row has exhausted its budget and no scheduled retry. -/
def FailedInv (s : Store) : Prop :=
  ∀ j ∈ s, j.status = "failed" → j.maxAttempts ≤ j.attempts ∧ j.nextRunAt = none

/-- Iterated /list calls: issue the request, then follow nextCursor while
it is non-null, concatenating the returned pages. -/
def listPages (s : Store) (st : Option String) (lim : Option Int) : Nat → Option String → List JobRow
  | 0, _ => []
  | fuel + 1, cur =>
    match (applyReq (Req.list st lim cur) s).2 with
    | Resp.listOut items next =>
      items ++ (match next with
        | none => []
        | some nc => listPages s st lim fuel (some nc))
    | _ => []

/-- Claim-side selection rule for C3, following the claim's words: the
least eligible job by createdAt ascending with ties broken by id
ascending. -/
def claimDequeueLeast (now : Int) (s : Store) : Option JobRow :=
  (sortByLe (fun a b => a.createdAt < b.createdAt || (a.createdAt == b.createdAt && !strLtb b.id a.id))
    (s.filter (eligible now))).head?

/-! ## Concrete traces used by counterexamples -/

def exBody (i : String) (ca : Int) (ma : Option Int) : EnqueueBody :=
  { id := some i, type := some "crawl", target := some "t", createdAt := some ca, maxAttempts := ma }

/-- Enqueue A, lease it, fail it once (re-queued with a 10 s backoff),
then complete it. -/
def trace1 : Store :=
  stepStore (Req.complete 400 (some "A") (some (Json.str "r")))
    (stepStore (Req.fail 300 (some "A") (some (Json.str "oops")))
      (stepStore (Req.dequeue 200)
        (stepStore (Req.enqueue 100 (exBody "A" 100 none)) [])))

/-- A further /fail on the done job of trace1. -/
def trace1Refail : Store := stepStore (Req.fail 500 (some "A") none) trace1

/-- Enqueue B with maxAttempts 1, then fail it twice. -/
def trace2 : Store :=
  stepStore (Req.fail 30 (some "B") none)
    (stepStore (Req.fail 20 (some "B") none)
      (stepStore (Req.enqueue 10 (exBody "B" 10 (some 1))) []))

/-- Two queued jobs with the same createdAt, enqueued as "b" then "a". -/
def trace3 : Store :=
  stepStore (Req.enqueue 2 (exBody "a" 5 none)) (stepStore (Req.enqueue 1 (exBody "b" 5 none)) [])

end RankPublic

/-! # Theorems -/

namespace RankPublic

/-! ## String order (BINARY collation) theory -/

theorem strLtCore_irrefl : ∀ l : List Char, strLtCore l l = false := by
  intro l
  induction l with
  | nil => rfl
  | cons a as ih => simp [strLtCore, ih]

theorem strLtCore_asymm : ∀ {l₁ l₂ : List Char}, strLtCore l₁ l₂ = true → strLtCore l₂ l₁ = false := by
  intro l₁
  induction l₁ with
  | nil =>
    intro l₂ h
    cases l₂ with
    | nil => simp [strLtCore] at h
    | cons b bs => simp [strLtCore]
  | cons a as ih =>
    intro l₂ h
    cases l₂ with
    | nil => simp [strLtCore] at h
    | cons b bs =>
      simp only [strLtCore] at h ⊢
      by_cases hab : a.toNat < b.toNat
      · have : ¬ b.toNat < a.toNat := by omega
        simp [hab, this]
      · by_cases hba : b.toNat < a.toNat
        · simp [hab, hba] at h
        · simp only [hab, if_false, hba, if_false] at h ⊢
          exact ih h

theorem strLtCore_trans : ∀ {l₁ l₂ l₃ : List Char},
    strLtCore l₁ l₂ = true → strLtCore l₂ l₃ = true → strLtCore l₁ l₃ = true := by
  intro l₁
  induction l₁ with
  | nil =>
    intro l₂ l₃ h₁ h₂
    cases l₂ with
    | nil => exact h₂
    | cons b bs => cases l₃ with
      | nil => simp [strLtCore] at h₂
      | cons c cs => simp [strLtCore]
  | cons a as ih =>
    intro l₂ l₃ h₁ h₂
    cases l₂ with
    | nil => simp [strLtCore] at h₁
    | cons b bs =>
      cases l₃ with
      | nil => simp [strLtCore] at h₂
      | cons c cs =>
        simp only [strLtCore] at h₁ h₂ ⊢
        by_cases hab : a.toNat < b.toNat
        · by_cases hbc : b.toNat < c.toNat
          · have : a.toNat < c.toNat := by omega
            simp [this]
          · by_cases hcb : c.toNat < b.toNat
            · simp [hbc, hcb] at h₂
            · have hbceq : b.toNat = c.toNat := by omega
              have : a.toNat < c.toNat := by omega
              simp [this]
        · by_cases hba : b.toNat < a.toNat
          · simp [hab, hba] at h₁
          · have habeq : a.toNat = b.toNat := by omega
            by_cases hbc : b.toNat < c.toNat
            · have : a.toNat < c.toNat := by omega
              simp [this]
            · by_cases hcb : c.toNat < b.toNat
              · simp [hbc, hcb] at h₂
              · have : ¬ a.toNat < c.toNat := by omega
                have h2 : ¬ c.toNat < a.toNat := by omega
                simp only [this, if_false, h2, if_false]
                simp only [hab, if_false, hba, if_false] at h₁
                simp only [hbc, if_false, hcb, if_false] at h₂
                exact ih h₁ h₂

theorem charToNat_inj {a b : Char} (h : a.toNat = b.toNat) : a = b := by
  have := congrArg Char.ofNat h
  rwa [Char.ofNat_toNat, Char.ofNat_toNat] at this

theorem strLtCore_conn : ∀ {l₁ l₂ : List Char},
    strLtCore l₁ l₂ = false → strLtCore l₂ l₁ = false → l₁ = l₂ := by
  intro l₁
  induction l₁ with
  | nil => intro l₂ h₁ _; cases l₂ with
    | nil => rfl
    | cons b bs => simp [strLtCore] at h₁
  | cons a as ih =>
    intro l₂ h₁ h₂
    cases l₂ with
    | nil => simp [strLtCore] at h₂
    | cons b bs =>
      simp only [strLtCore] at h₁ h₂
      by_cases hab : a.toNat < b.toNat
      · simp [hab] at h₁
      · by_cases hba : b.toNat < a.toNat
        · simp [hab, hba] at h₂
        · have : a = b := charToNat_inj (by omega)
          subst this
          simp only [hab, if_false, hba, if_false] at h₁ h₂
          rw [ih h₁ h₂]

theorem strLtb_irrefl (a : String) : strLtb a a = false := strLtCore_irrefl a.data

theorem strLtb_asymm {a b : String} (h : strLtb a b = true) : strLtb b a = false :=
  strLtCore_asymm h

theorem strLtb_trans {a b c : String} (h₁ : strLtb a b = true) (h₂ : strLtb b c = true) :
    strLtb a c = true := strLtCore_trans h₁ h₂

theorem strLtb_conn {a b : String} (h₁ : strLtb a b = false) (h₂ : strLtb b a = false) : a = b :=
  String.ext (strLtCore_conn h₁ h₂)

/-! ## Key order theory -/

theorem keyLtb_irrefl (k : Option Int × String) : keyLtb k k = false := by
  obtain ⟨o, i⟩ := k
  cases o with
  | none => simpa [keyLtb] using strLtb_irrefl i
  | some v => simp [keyLtb, strLtb_irrefl i]

theorem keyLtb_asymm {k₁ k₂ : Option Int × String} (h : keyLtb k₁ k₂ = true) :
    keyLtb k₂ k₁ = false := by
  obtain ⟨o₁, i₁⟩ := k₁
  obtain ⟨o₂, i₂⟩ := k₂
  cases o₁ with
  | none => cases o₂ with
    | none =>
      simp only [keyLtb] at h ⊢
      exact strLtb_asymm h
    | some w => simp [keyLtb]
  | some v => cases o₂ with
    | none => simp [keyLtb] at h
    | some w =>
      simp only [keyLtb, Bool.or_eq_true, Bool.and_eq_true, beq_iff_eq, decide_eq_true_eq] at h
      rcases h with h | ⟨rfl, h⟩
      · have h1 : ¬ w < v := by omega
        have h2 : (w == v) = false := by simp; omega
        simp [keyLtb, h1, h2]
      · have h1 : ¬ v < v := by omega
        simp [keyLtb, h1, strLtb_asymm h]

theorem keyLtb_trans {k₁ k₂ k₃ : Option Int × String}
    (h₁ : keyLtb k₁ k₂ = true) (h₂ : keyLtb k₂ k₃ = true) : keyLtb k₁ k₃ = true := by
  obtain ⟨o₁, i₁⟩ := k₁
  obtain ⟨o₂, i₂⟩ := k₂
  obtain ⟨o₃, i₃⟩ := k₃
  cases o₁ with
  | none => cases o₂ with
    | none => cases o₃ with
      | none =>
        simp only [keyLtb] at h₁ h₂ ⊢
        exact strLtb_trans h₁ h₂
      | some w => simp [keyLtb]
    | some w => cases o₃ with
      | none => simp [keyLtb] at h₂
      | some x => simp [keyLtb]
  | some v => cases o₂ with
    | none => simp [keyLtb] at h₁
    | some w => cases o₃ with
      | none => simp [keyLtb] at h₂
      | some x =>
        simp only [keyLtb, Bool.or_eq_true, Bool.and_eq_true, beq_iff_eq, decide_eq_true_eq] at h₁ h₂ ⊢
        rcases h₁ with h₁ | ⟨rfl, h₁⟩
        · rcases h₂ with h₂ | ⟨rfl, h₂⟩
          · exact Or.inl (by omega)
          · exact Or.inl h₁
        · rcases h₂ with h₂ | ⟨rfl, h₂⟩
          · exact Or.inl h₂
          · exact Or.inr ⟨rfl, strLtb_trans h₁ h₂⟩

theorem keyLtb_conn {k₁ k₂ : Option Int × String}
    (h₁ : keyLtb k₁ k₂ = false) (h₂ : keyLtb k₂ k₁ = false) : k₁ = k₂ := by
  obtain ⟨o₁, i₁⟩ := k₁
  obtain ⟨o₂, i₂⟩ := k₂
  cases o₁ with
  | none => cases o₂ with
    | none =>
      simp only [keyLtb] at h₁ h₂
      rw [strLtb_conn h₁ h₂]
    | some w => simp [keyLtb] at h₁
  | some v => cases o₂ with
    | none => simp [keyLtb] at h₂
    | some w =>
      simp only [keyLtb, Bool.or_eq_false_iff, decide_eq_false_iff_not] at h₁ h₂
      obtain ⟨hv₁, hrest₁⟩ := h₁
      obtain ⟨hv₂, hrest₂⟩ := h₂
      have hvw : v = w := by omega
      subst hvw
      simp only [beq_self_eq_true, Bool.true_and] at hrest₁ hrest₂
      rw [strLtb_conn hrest₁ hrest₂]

theorem pageLe_total (x y : JobRow) : pageLe x y = true ∨ pageLe y x = true := by
  by_cases h : keyLtb (rowKey x) (rowKey y) = true
  · right
    simp [pageLe, keyLtb_asymm h]
  · left
    simp only [pageLe, Bool.not_eq_true']
    simpa using h

theorem pageLe_trans (x y z : JobRow) (h₁ : pageLe x y = true) (h₂ : pageLe y z = true) :
    pageLe x z = true := by
  simp only [pageLe, Bool.not_eq_true'] at h₁ h₂ ⊢
  cases hyx : keyLtb (rowKey y) (rowKey x) with
  | true =>
    cases hzy : keyLtb (rowKey z) (rowKey y) with
    | true => exact keyLtb_asymm (keyLtb_trans hzy hyx)
    | false =>
      have hyz : rowKey y = rowKey z := keyLtb_conn h₂ hzy
      rw [← hyz]
      exact h₁
  | false =>
    have hxy : rowKey x = rowKey y := keyLtb_conn h₁ hyx
    rw [hxy]
    exact h₂

/-! ## Insertion sort theory -/

theorem mem_insertLe {α : Type} (le : α → α → Bool) (a x : α) :
    ∀ l : List α, x ∈ insertLe le a l ↔ x = a ∨ x ∈ l := by
  intro l
  induction l with
  | nil => simp [insertLe]
  | cons b bs ih =>
    simp only [insertLe]
    cases hab : le a b with
    | true => simp
    | false =>
      simp only [Bool.false_eq_true, if_false, List.mem_cons, ih]
      tauto

theorem insertLe_perm {α : Type} (le : α → α → Bool) (a : α) :
    ∀ l : List α, (insertLe le a l).Perm (a :: l) := by
  intro l
  induction l with
  | nil => simp [insertLe]
  | cons b bs ih =>
    simp only [insertLe]
    cases hab : le a b with
    | true => simp
    | false =>
      simp only [Bool.false_eq_true, if_false]
      exact (ih.cons b).trans (List.Perm.swap a b bs)

theorem sortByLe_perm {α : Type} (le : α → α → Bool) :
    ∀ l : List α, (sortByLe le l).Perm l := by
  intro l
  induction l with
  | nil => simp [sortByLe]
  | cons a as ih =>
    simp only [sortByLe]
    exact (insertLe_perm le a (sortByLe le as)).trans (ih.cons a)

theorem pairwise_insertLe {α : Type} (le : α → α → Bool)
    (htrans : ∀ x y z, le x y = true → le y z = true → le x z = true)
    (htot : ∀ x y, le x y = true ∨ le y x = true) (a : α) :
    ∀ {l : List α}, List.Pairwise (fun x y => le x y = true) l →
      List.Pairwise (fun x y => le x y = true) (insertLe le a l) := by
  intro l
  induction l with
  | nil => intro _; simp [insertLe]
  | cons b bs ih =>
    intro h
    rcases List.pairwise_cons.mp h with ⟨hb, hbs⟩
    simp only [insertLe]
    cases hab : le a b with
    | true =>
      simp only [if_true]
      refine List.pairwise_cons.mpr ⟨?_, h⟩
      intro x hx
      rcases List.mem_cons.mp hx with rfl | hx
      · exact hab
      · exact htrans a b x hab (hb x hx)
    | false =>
      simp only [Bool.false_eq_true, if_false]
      refine List.pairwise_cons.mpr ⟨?_, ih hbs⟩
      intro x hx
      rcases (mem_insertLe le a x bs).mp hx with hxa | hx
      · subst hxa
        rcases htot x b with h' | h'
        · rw [h'] at hab
          cases hab
        · exact h'
      · exact hb x hx

theorem sortByLe_sorted {α : Type} (le : α → α → Bool)
    (htrans : ∀ x y z, le x y = true → le y z = true → le x z = true)
    (htot : ∀ x y, le x y = true ∨ le y x = true) :
    ∀ l : List α, List.Pairwise (fun x y => le x y = true) (sortByLe le l) := by
  intro l
  induction l with
  | nil => simp [sortByLe]
  | cons a as ih =>
    simp only [sortByLe]
    exact pairwise_insertLe le htrans htot a ih

/-! ## Point lookups under WHERE id = ? updates -/

theorem jobById_eq_none_iff {s : Store} {i : String} :
    jobById s i = none ↔ ∀ j ∈ s, j.id ≠ i := by
  simp [jobById, List.find?_eq_none]

theorem jobById_mem {s : Store} {i : String} {r : JobRow} (h : jobById s i = some r) :
    r ∈ s ∧ r.id = i := by
  have hm := List.mem_of_find?_eq_some h
  have hp := List.find?_some h
  simp only [beq_iff_eq] at hp
  exact ⟨hm, hp⟩

theorem jobById_update_self {i : String} (u : JobRow → JobRow) (hu : ∀ j, (u j).id = j.id) :
    ∀ {s : Store} {r : JobRow}, jobById s i = some r →
      jobById (s.map (fun j => if j.id == i then u j else j)) i = some (u r) := by
  intro s
  induction s with
  | nil => intro r h; simp [jobById] at h
  | cons a t ih =>
    intro r h
    by_cases ha : a.id = i
    · have ht : (a.id == i) = true := by simpa using ha
      have ht2 : ((u a).id == i) = true := by simp [hu a, ha]
      simp only [jobById, List.find?_cons, ht] at h
      simp only [jobById, List.map_cons, List.find?_cons, ht, if_true, ht2]
      cases h
      rfl
    · have hf : (a.id == i) = false := by simpa using ha
      simp only [jobById, List.find?_cons, hf] at h
      simp only [jobById, List.map_cons, List.find?_cons, hf, Bool.false_eq_true, if_false]
      exact ih h

theorem jobById_update_frame {i : String} (u : JobRow → JobRow) (hu : ∀ j, (u j).id = j.id)
    {i2 : String} (hne : i2 ≠ i) :
    ∀ s : Store, jobById (s.map (fun j => if j.id == i then u j else j)) i2 = jobById s i2 := by
  intro s
  induction s with
  | nil => rfl
  | cons a t ih =>
    by_cases ha : a.id = i
    · have ht : (a.id == i) = true := by simpa using ha
      have h2 : (a.id == i2) = false := by
        have hne2 : a.id ≠ i2 := fun hcon => hne (by rw [← hcon, ha])
        simpa using hne2
      have h3 : ((u a).id == i2) = false := by rw [hu a]; exact h2
      simp only [List.map_cons, jobById, List.find?_cons, ht, if_true, h2, h3, Bool.false_eq_true]
      exact ih
    · have hf : (a.id == i) = false := by simpa using ha
      by_cases h2 : a.id = i2
      · have ht2 : (a.id == i2) = true := by simpa using h2
        simp only [List.map_cons, jobById, List.find?_cons, hf, Bool.false_eq_true, if_false, ht2]
      · have hf2 : (a.id == i2) = false := by simpa using h2
        simp only [List.map_cons, jobById, List.find?_cons, hf, Bool.false_eq_true, if_false, hf2]
        exact ih

theorem update_of_jobById_none {i : String} (u : JobRow → JobRow) :
    ∀ {s : Store}, jobById s i = none → s.map (fun j => if j.id == i then u j else j) = s := by
  intro s h
  rw [jobById_eq_none_iff] at h
  induction s with
  | nil => rfl
  | cons a t ih =>
    have ha : (a.id == i) = false := by simpa using h a (List.mem_cons_self a t)
    simp only [List.map_cons, ha, Bool.false_eq_true, if_false]
    rw [ih (fun j hj => h j (List.mem_cons_of_mem a hj))]

theorem mem_update_of_ne {i : String} (u : JobRow → JobRow) {s : Store} {j : JobRow}
    (hj : j ∈ s) (hne : j.id ≠ i) :
    j ∈ s.map (fun j => if j.id == i then u j else j) := by
  have : (fun x : JobRow => if x.id == i then u x else x) j = j := by
    simp [hne]
  exact this ▸ List.mem_map_of_mem _ hj

theorem mem_update_elim {i : String} {u : JobRow → JobRow} {s : Store} {x : JobRow}
    (hx : x ∈ s.map (fun j => if j.id == i then u j else j)) :
    ∃ j ∈ s, x = if j.id == i then u j else j := by
  rcases List.mem_map.mp hx with ⟨j, hj, hx⟩
  exact ⟨j, hj, hx.symm⟩

theorem mem_eq_of_jobById {s : Store} (hnd : (s.map (fun j => j.id)).Nodup)
    {i : String} {r j : JobRow} (hr : jobById s i = some r) (hj : j ∈ s) (hid : j.id = i) :
    j = r := by
  induction s with
  | nil => simp [jobById] at hr
  | cons a t ih =>
    simp only [List.map_cons, List.nodup_cons] at hnd
    simp only [jobById, List.find?_cons] at hr
    rcases List.mem_cons.mp hj with rfl | hjt
    · have : (j.id == i) = true := by simpa using hid
      simp only [this, if_true] at hr
      cases hr
      rfl
    · by_cases ha : a.id = i
      · exfalso
        apply hnd.1
        have hmem : j.id ∈ t.map (fun j => j.id) := List.mem_map_of_mem (fun j => j.id) hjt
        rw [ha, ← hid]
        exact hmem
      · have : (a.id == i) = false := by simpa using ha
        simp only [this, if_false] at hr
        exact ih hnd.2 hr hjt

theorem ids_map_update {i : String} (u : JobRow → JobRow) (hu : ∀ j, (u j).id = j.id)
    (s : Store) :
    (s.map (fun j => if j.id == i then u j else j)).map (fun j => j.id) = s.map (fun j => j.id) := by
  rw [List.map_map]
  apply List.map_congr_left
  intro j _
  by_cases h : j.id = i
  · simp [h, hu j]
  · simp [h]

/-! ## The backfill is the identity on reachable stores -/

theorem backfill_eq_self {s : Store} (h : ∀ j ∈ s, j.sortAt ≠ none) : backfill s = s := by
  unfold backfill
  induction s with
  | nil => rfl
  | cons a t ih =>
    simp only [List.map_cons]
    rw [if_neg (h a (List.mem_cons_self a t)), ih (fun j hj => h j (List.mem_cons_of_mem a hj))]

theorem goodStore_backfill {s : Store} (h : GoodStore s) : backfill s = s :=
  backfill_eq_self (fun j hj => (h.2 j hj).1)

/-! ## Invariant preservation -/

theorem goodStore_nil : GoodStore [] := ⟨List.nodup_nil, by intro j hj; cases hj⟩

theorem failedInv_nil : FailedInv [] := by intro j hj; cases hj

theorem goodStore_update {s : Store} (h : GoodStore s) (i : String) (u : JobRow → JobRow)
    (hu : ∀ j, (u j).id = j.id) (hs : ∀ j, (u j).sortAt ≠ none) :
    GoodStore (s.map (fun j => if j.id == i then u j else j)) := by
  constructor
  · rw [ids_map_update u hu s]
    exact h.1
  · intro x hx
    rcases mem_update_elim hx with ⟨j, hj, rfl⟩
    cases hij : j.id == i with
    | true =>
      simp only [hij, if_true]
      exact ⟨hs j, by rw [hu j]; exact (h.2 j hj).2⟩
    | false =>
      simp only [hij, Bool.false_eq_true, if_false]
      exact h.2 j hj

theorem failedInv_update_nonfailed {s : Store} (h : FailedInv s) (i : String)
    (u : JobRow → JobRow) (hns : ∀ j, (u j).status ≠ "failed") :
    FailedInv (s.map (fun j => if j.id == i then u j else j)) := by
  intro x hx hfail
  rcases mem_update_elim hx with ⟨j, hj, rfl⟩
  cases hij : j.id == i with
  | true =>
    simp only [hij, if_true] at hfail ⊢
    exact absurd hfail (hns j)
  | false =>
    simp only [hij, Bool.false_eq_true, if_false] at hfail ⊢
    exact h j hj hfail

theorem clampInt_getD_bounds (m : Option Int) :
    1 ≤ (clampInt m 1 10).getD 3 ∧ (clampInt m 1 10).getD 3 ≤ 10 := by
  cases m with
  | none => simp [clampInt]
  | some x =>
    simp only [clampInt]
    split
    · simp
    · split
      · simp
      · simp only [Option.getD_some]
        omega

theorem goodStore_append_fresh {s : Store} (h : GoodStore s) {row : JobRow}
    (hnotin : ∀ j ∈ s, j.id ≠ row.id) (hsa : row.sortAt ≠ none) (hid : row.id ≠ "") :
    GoodStore (s ++ [row]) := by
  constructor
  · rw [List.map_append]
    rw [List.nodup_append]
    refine ⟨h.1, List.nodup_singleton row.id, ?_⟩
    intro a ha hb
    simp only [List.map_cons, List.map_nil, List.mem_singleton] at hb
    rcases List.mem_map.mp ha with ⟨j, hj, rfl⟩
    exact hnotin j hj hb
  · intro j hj
    rcases List.mem_append.mp hj with hj | hj
    · exact h.2 j hj
    · rcases List.mem_singleton.mp hj with rfl
      exact ⟨hsa, hid⟩

theorem inv_enqueue (now : Int) (b : EnqueueBody) {s : Store}
    (hg : GoodStore s) (hf : FailedInv s) :
    GoodStore (enqueueOp now b s).1 ∧ FailedInv (enqueueOp now b s).1 := by
  unfold enqueueOp
  dsimp only
  split
  · split
    · exact ⟨hg, hf⟩
    · rename_i hval
      split
      · exact ⟨hg, hf⟩
      · rename_i hdup
        constructor
        · apply goodStore_append_fresh hg
          · intro j hj hcon
            apply hdup
            rw [List.any_eq_true]
            exact ⟨j, hj, by simpa using hcon⟩
          · simp [freshJob]
          · intro hcon
            exact hval (Or.inl hcon)
        · intro j hj hfail
          rcases List.mem_append.mp hj with hj | hj
          · exact hf j hj hfail
          · rcases List.mem_singleton.mp hj with rfl
            simp [freshJob] at hfail
  · exact ⟨hg, hf⟩

theorem inv_dequeue (now : Int) {s : Store} (hg : GoodStore s) (hf : FailedInv s) :
    GoodStore (dequeueOp now s).1 ∧ FailedInv (dequeueOp now s).1 := by
  unfold dequeueOp
  split
  · exact ⟨hg, hf⟩
  · constructor
    · exact goodStore_update hg _ _ (fun j => rfl) (fun j => by simp)
    · exact failedInv_update_nonfailed hf _ _ (fun j => by simp)

theorem inv_complete (now : Int) (id : Option String) (r : Option Json) {s : Store}
    (hg : GoodStore s) (hf : FailedInv s) :
    GoodStore (completeOp now id r s).1 ∧ FailedInv (completeOp now id r s).1 := by
  unfold completeOp
  split
  · exact ⟨hg, hf⟩
  · split
    · exact ⟨hg, hf⟩
    · dsimp only
      constructor
      · exact goodStore_update hg _ _ (fun j => rfl) (fun j => by simp)
      · exact failedInv_update_nonfailed hf _ _ (fun j => by simp)

theorem inv_fail (now : Int) (id : Option String) (e : Option Json) {s : Store}
    (hg : GoodStore s) (hf : FailedInv s) :
    GoodStore (failOp now id e s).1 ∧ FailedInv (failOp now id e s).1 := by
  unfold failOp
  split
  · exact ⟨hg, hf⟩
  · rename_i i
    split
    · exact ⟨hg, hf⟩
    · dsimp only
      split
      · exact ⟨hg, hf⟩
      · rename_i row hrow
        split
        · constructor
          · exact goodStore_update hg _ _ (fun j => rfl) (fun j => by simp)
          · exact failedInv_update_nonfailed hf _ _ (fun j => by simp)
        · rename_i hge
          constructor
          · exact goodStore_update hg _ _ (fun j => rfl) (fun j => by simp)
          · intro x hx hfail
            rcases mem_update_elim hx with ⟨j, hj, rfl⟩
            cases hij : j.id == i with
            | true =>
              have hji : j.id = i := by simpa using hij
              have hjrow : j = row := mem_eq_of_jobById hg.1 hrow hj hji
              subst hjrow
              simp only [hij, if_true]
              exact ⟨by omega, trivial⟩
            | false =>
              simp only [hij, Bool.false_eq_true, if_false] at hfail ⊢
              exact hf j hj hfail

theorem inv_purge (b : Option Int) {s : Store} (hg : GoodStore s) (hf : FailedInv s) :
    GoodStore (purgeOp b s).1 ∧ FailedInv (purgeOp b s).1 := by
  unfold purgeOp
  split
  · exact ⟨hg, hf⟩
  · constructor
    · constructor
      · exact ((List.filter_sublist s).map (fun j => j.id)).nodup hg.1
      · intro j hj
        exact hg.2 j (List.mem_of_mem_filter hj)
    · intro j hj hfail
      exact hf j (List.mem_of_mem_filter hj) hfail

/-- Every reachable store has unique non-empty ids, non-NULL sortAt, and
exhausted failed rows. -/
theorem reachable_inv : ∀ {s : Store}, Reachable s → GoodStore s ∧ FailedInv s := by
  intro s h
  induction h with
  | empty => exact ⟨goodStore_nil, failedInv_nil⟩
  | step r hs ih =>
    obtain ⟨hg, hf⟩ := ih
    show GoodStore (stepStore r _) ∧ FailedInv (stepStore r _)
    cases r with
    | enqueue now b =>
      show GoodStore (enqueueOp now b (backfill _)).1 ∧ FailedInv (enqueueOp now b (backfill _)).1
      rw [goodStore_backfill hg]
      exact inv_enqueue now b hg hf
    | dequeue now =>
      show GoodStore (dequeueOp now (backfill _)).1 ∧ FailedInv (dequeueOp now (backfill _)).1
      rw [goodStore_backfill hg]
      exact inv_dequeue now hg hf
    | complete now id r =>
      show GoodStore (completeOp now id r (backfill _)).1 ∧ FailedInv (completeOp now id r (backfill _)).1
      rw [goodStore_backfill hg]
      exact inv_complete now id r hg hf
    | fail now id e =>
      show GoodStore (failOp now id e (backfill _)).1 ∧ FailedInv (failOp now id e (backfill _)).1
      rw [goodStore_backfill hg]
      exact inv_fail now id e hg hf
    | purge b =>
      show GoodStore (purgeOp b (backfill _)).1 ∧ FailedInv (purgeOp b (backfill _)).1
      rw [goodStore_backfill hg]
      exact inv_purge b hg hf
    | get id =>
      show GoodStore (getOp id (backfill _)).1 ∧ FailedInv (getOp id (backfill _)).1
      rw [goodStore_backfill hg]
      unfold getOp
      split
      · exact ⟨hg, hf⟩
      · split
        · exact ⟨hg, hf⟩
        · exact ⟨hg, hf⟩
    | stats =>
      show GoodStore (statsOp (backfill _)).1 ∧ FailedInv (statsOp (backfill _)).1
      rw [goodStore_backfill hg]
      exact ⟨hg, hf⟩
    | list st lim cur =>
      show GoodStore (listOp st lim cur (backfill _)).1 ∧ FailedInv (listOp st lim cur (backfill _)).1
      rw [goodStore_backfill hg]
      exact ⟨hg, hf⟩

/-! ## Dispatch rewriting under the invariant -/

theorem applyReq_fail_eq {s : Store} (hgood : GoodStore s) (now : Int) (id : Option String)
    (e : Option Json) : applyReq (Req.fail now id e) s = failOp now id e s := by
  show failOp now id e (backfill s) = _
  rw [goodStore_backfill hgood]

theorem applyReq_dequeue_eq {s : Store} (hgood : GoodStore s) (now : Int) :
    applyReq (Req.dequeue now) s = dequeueOp now s := by
  show dequeueOp now (backfill s) = _
  rw [goodStore_backfill hgood]

theorem applyReq_complete_eq {s : Store} (hgood : GoodStore s) (now : Int) (id : Option String)
    (r : Option Json) : applyReq (Req.complete now id r) s = completeOp now id r s := by
  show completeOp now id r (backfill s) = _
  rw [goodStore_backfill hgood]

theorem applyReq_enqueue_eq {s : Store} (hgood : GoodStore s) (now : Int) (b : EnqueueBody) :
    applyReq (Req.enqueue now b) s = enqueueOp now b s := by
  show enqueueOp now b (backfill s) = _
  rw [goodStore_backfill hgood]

theorem applyReq_list_eq {s : Store} (hgood : GoodStore s) (st : Option String)
    (lim : Option Int) (cur : Option String) :
    applyReq (Req.list st lim cur) s = listOp st lim cur s := by
  show listOp st lim cur (backfill s) = _
  rw [goodStore_backfill hgood]

/-- The /fail handler on a present row, unfolded to its two UPDATE
branches. -/
theorem failOp_present {s : Store} {i : String} {r : JobRow} (hi : i ≠ "")
    (hr : jobById s i = some r) (now : Int) (e : Option Json) :
    failOp now (some i) e s =
      (if r.attempts + 1 < r.maxAttempts then
        (s.map (fun j => if j.id == i then
            { j with status := "queued", updatedAt := some now, sortAt := some now,
                     leaseUntil := none, error := some (failErrString e),
                     attempts := r.attempts + 1,
                     nextRunAt := some (now + failBackoff (r.attempts + 1)) } else j),
         Resp.retried (r.attempts + 1) r.maxAttempts (now + failBackoff (r.attempts + 1)))
      else
        (s.map (fun j => if j.id == i then
            { j with status := "failed", updatedAt := some now, sortAt := some now,
                     leaseUntil := none, error := some (failErrString e),
                     attempts := r.attempts + 1, nextRunAt := none } else j),
         Resp.exhausted (r.attempts + 1) r.maxAttempts)) := by
  unfold failOp
  dsimp only
  rw [if_neg hi, hr]

/-! # Claim theorems -/

/-- C1 (code bug): in the reachable state trace1 — enqueue A, dequeue it,
fail it once (re-queueing it with nextRunAt = 300 + 10000), then
complete it — job A is done yet nextRunAt is non-null, violating the
claimed invariant status ∈ {done, failed} → nextRunAt = null.  The
/complete UPDATE (line 418) omits a nextRunAt assignment. -/
theorem c1_code_bug_done_retains_nextRunAt :
    Reachable trace1 ∧
    jobById trace1 "A" =
      some { id := "A", type := "crawl", target := "t", createdAt := 100, status := "done",
             updatedAt := some 400, leaseUntil := none, result := some "\"r\"", error := none,
             attempts := 1, maxAttempts := 3, nextRunAt := some 10300, sortAt := some 400 } ∧
    some (10300 : Int) ≠ (none : Option Int) :=
  ⟨Reachable.step _ (Reachable.step _ (Reachable.step _ (Reachable.step _ Reachable.empty))),
   by decide, by decide⟩

/-- C2 (code bug): completing job A in trace1 sets status, result, error,
leaseUntil, updatedAt and sortAt exactly as the claim states, but leaves
nextRunAt at its prior retry value 10300 instead of null: the UPDATE of
/complete (lines 416-425) assigns no nextRunAt. -/
theorem c2_code_bug_complete_leaves_nextRunAt :
    (applyReq (Req.complete 400 (some "A") (some (Json.str "r")))
        (stepStore (Req.fail 300 (some "A") (some (Json.str "oops")))
          (stepStore (Req.dequeue 200)
            (stepStore (Req.enqueue 100 (exBody "A" 100 none)) [])))).2 = Resp.okText ∧
    jobById trace1 "A" =
      some { id := "A", type := "crawl", target := "t", createdAt := 100, status := "done",
             updatedAt := some 400, leaseUntil := none, result := some "\"r\"", error := none,
             attempts := 1, maxAttempts := 3, nextRunAt := some 10300, sortAt := some 400 } ∧
    jobById (stepStore (Req.fail 300 (some "A") (some (Json.str "oops")))
        (stepStore (Req.dequeue 200)
          (stepStore (Req.enqueue 100 (exBody "A" 100 none)) []))) "A" =
      some { id := "A", type := "crawl", target := "t", createdAt := 100, status := "queued",
             updatedAt := some 300, leaseUntil := none, result := none, error := some "oops",
             attempts := 1, maxAttempts := 3, nextRunAt := some 10300, sortAt := some 300 } :=
  ⟨by decide, by decide, by decide⟩

/-- C5 counterexample: enqueue B with maxAttempts 1 and fail it twice
(trace2, a reachable state): attempts reaches 2 > maxAttempts = 1, so
the claimed invariant attempts ≤ maxAttempts fails — /fail has no gate
on terminal status and keeps incrementing attempts. -/
theorem c5_counterexample_attempts_exceed_max :
    Reachable trace2 ∧
    (jobById trace2 "B").map (fun j => (j.attempts, j.maxAttempts, j.status)) =
      some (2, 1, "failed") ∧
    ¬ (2 : Int) ≤ 1 :=
  ⟨Reachable.step _ (Reachable.step _ (Reachable.step _ Reachable.empty)),
   by decide, by decide⟩

/-- C6 counterexample: in the reachable state trace1 job A is done, yet a
subsequent /fail re-queues it (attempts 1+1 = 2 < 3), a state transition
out of a terminal state by an operation other than purge. -/
theorem c6_counterexample_terminal_transitions :
    Reachable trace1 ∧
    (jobById trace1 "A").map (fun j => j.status) = some "done" ∧
    (jobById trace1Refail "A").map (fun j => (j.status, j.attempts, j.nextRunAt)) =
      some ("queued", 2, some 60500) ∧
    ("queued" : String) ≠ "done" :=
  ⟨Reachable.step _ (Reachable.step _ (Reachable.step _ (Reachable.step _ Reachable.empty))),
   by decide, by decide, by decide⟩

/-- C3 counterexample: trace3 holds two eligible jobs with equal
createdAt = 5, inserted as "b" then "a".  The claim says dequeue picks
the id-ascending least, "a"; the code's SQL orders by createdAt only and
the scan returns the first-inserted row, so dequeue leases "b". -/
theorem c3_counterexample_tie_break :
    Reachable trace3 ∧
    (applyReq (Req.dequeue 100) trace3).2 = Resp.leased "b" "crawl" "t" 5 120100 ∧
    (claimDequeueLeast 100 trace3).map (fun j => j.id) = some "a" ∧
    ("b" : String) ≠ "a" :=
  ⟨Reachable.step _ (Reachable.step _ Reachable.empty), by decide, by decide, by decide⟩

/-- C4: /fail semantics.  On a job present in the store, with
nextAttempts = attempts + 1: if nextAttempts < maxAttempts the row
becomes queued with the stored error, attempts = nextAttempts,
nextRunAt = now + backoff, leaseUntil null, updatedAt = sortAt = now,
and the response is retried with attempts, maxAttempts and nextRunAt;
otherwise the row becomes failed with nextRunAt null and the response is
retried:false.  On an absent id the response is not_found and the store
is unchanged.  The backoff schedule is 10 s / 60 s / 300 s for
nextAttempts 1 / 2 / ≥ 3. -/
theorem c4_fail_semantics (now : Int) (i : String) (e : Option Json) (s : Store)
    (hi : i ≠ "") (hgood : GoodStore s) :
    (∀ r, jobById s i = some r →
      (r.attempts + 1 < r.maxAttempts →
        (applyReq (Req.fail now (some i) e) s).2
          = Resp.retried (r.attempts + 1) r.maxAttempts (now + failBackoff (r.attempts + 1)) ∧
        jobById (stepStore (Req.fail now (some i) e) s) i
          = some { r with
                    status := "queued", updatedAt := some now, sortAt := some now,
                    leaseUntil := none, error := some (failErrString e),
                    attempts := r.attempts + 1,
                    nextRunAt := some (now + failBackoff (r.attempts + 1)) } ∧
        (∀ i2, i2 ≠ i →
          jobById (stepStore (Req.fail now (some i) e) s) i2 = jobById s i2)) ∧
      (r.maxAttempts ≤ r.attempts + 1 →
        (applyReq (Req.fail now (some i) e) s).2
          = Resp.exhausted (r.attempts + 1) r.maxAttempts ∧
        jobById (stepStore (Req.fail now (some i) e) s) i
          = some { r with
                    status := "failed", updatedAt := some now, sortAt := some now,
                    leaseUntil := none, error := some (failErrString e),
                    attempts := r.attempts + 1, nextRunAt := none } ∧
        (∀ i2, i2 ≠ i →
          jobById (stepStore (Req.fail now (some i) e) s) i2 = jobById s i2))) ∧
    (jobById s i = none → applyReq (Req.fail now (some i) e) s = (s, Resp.notFound)) ∧
    (failBackoff 1 = 10000 ∧ failBackoff 2 = 60000 ∧ ∀ n : Int, 3 ≤ n → failBackoff n = 300000) := by
  refine ⟨?_, ?_, ?_, ?_, ?_⟩
  · intro r hr
    have hstep : applyReq (Req.fail now (some i) e) s = failOp now (some i) e s :=
      applyReq_fail_eq hgood now (some i) e
    have hbody := failOp_present hi hr now e
    constructor
    · intro hlt
      rw [if_pos hlt] at hbody
      refine ⟨by rw [hstep, hbody], ?_, ?_⟩
      · show ((applyReq (Req.fail now (some i) e) s).1.find? fun j => j.id == i) = _
        rw [hstep, hbody]
        exact jobById_update_self (fun j => { j with status := "queued", updatedAt := some now, sortAt := some now, leaseUntil := none, error := some (failErrString e), attempts := r.attempts + 1, nextRunAt := some (now + failBackoff (r.attempts + 1)) }) (fun j => rfl) hr
      · intro i2 hi2
        show ((applyReq (Req.fail now (some i) e) s).1.find? fun j => j.id == i2) = _
        rw [hstep, hbody]
        exact jobById_update_frame (fun j => { j with status := "queued", updatedAt := some now, sortAt := some now, leaseUntil := none, error := some (failErrString e), attempts := r.attempts + 1, nextRunAt := some (now + failBackoff (r.attempts + 1)) }) (fun j => rfl) hi2 s
    · intro hge
      have hnlt : ¬ r.attempts + 1 < r.maxAttempts := by omega
      rw [if_neg hnlt] at hbody
      refine ⟨by rw [hstep, hbody], ?_, ?_⟩
      · show ((applyReq (Req.fail now (some i) e) s).1.find? fun j => j.id == i) = _
        rw [hstep, hbody]
        exact jobById_update_self (fun j => { j with status := "failed", updatedAt := some now, sortAt := some now, leaseUntil := none, error := some (failErrString e), attempts := r.attempts + 1, nextRunAt := none }) (fun j => rfl) hr
      · intro i2 hi2
        show ((applyReq (Req.fail now (some i) e) s).1.find? fun j => j.id == i2) = _
        rw [hstep, hbody]
        exact jobById_update_frame (fun j => { j with status := "failed", updatedAt := some now, sortAt := some now, leaseUntil := none, error := some (failErrString e), attempts := r.attempts + 1, nextRunAt := none }) (fun j => rfl) hi2 s
  · intro hnone
    rw [applyReq_fail_eq hgood now (some i) e]
    unfold failOp
    dsimp only
    rw [if_neg hi, hnone]
  · rfl
  · rfl
  · intro n hn
    unfold failBackoff
    rw [if_neg (by omega), if_neg (by omega)]

/-- Witness for c4_fail_semantics at the singleton store holding one
queued job with id "b". -/
theorem c4_fail_semantics_witness :
    (applyReq (Req.fail 7 (some "b") none) (stepStore (Req.enqueue 1 (exBody "b" 5 none)) [])).2
      = Resp.retried 1 3 10007 := by
  have h := (c4_fail_semantics 7 "b" none (stepStore (Req.enqueue 1 (exBody "b" 5 none)) [])
    (by decide) ⟨by decide, by decide⟩).1
    { id := "b", type := "crawl", target := "t", createdAt := 5, status := "queued",
      updatedAt := some 1, leaseUntil := none, result := none, error := none,
      attempts := 0, maxAttempts := 3, nextRunAt := none, sortAt := some 1 } (by decide)
  exact (h.1 (by decide)).1

/-- C10: /fail does not validate body.error.  With the id present, an
absent or null error is accepted (the response is neither a validation
error nor not_found) and stored as the literal string "unknown"; any
other value is stored as its String() coercion. -/
theorem c10_fail_error_coercion (now : Int) (i : String) (s : Store) (r : JobRow)
    (hi : i ≠ "") (hgood : GoodStore s) (hr : jobById s i = some r) :
    (∀ e : Option Json, (e = none ∨ e = some Json.null) →
      (applyReq (Req.fail now (some i) e) s).2 ≠ Resp.badRequest ∧
      (applyReq (Req.fail now (some i) e) s).2 ≠ Resp.notFound ∧
      ∃ j, jobById (stepStore (Req.fail now (some i) e) s) i = some j ∧
        j.error = some "unknown") ∧
    (∀ v : Json, v ≠ Json.null →
      ∃ j, jobById (stepStore (Req.fail now (some i) (some v)) s) i = some j ∧
        j.error = some (jsToString v)) := by
  have werr : ∀ e : Option Json, (e = none ∨ e = some Json.null) → failErrString e = "unknown" := by
    intro e he
    rcases he with rfl | rfl
    · rfl
    · rfl
  have werr2 : ∀ v : Json, v ≠ Json.null → failErrString (some v) = jsToString v := by
    intro v hv
    cases v with
    | null => exact absurd rfl hv
    | bool b => rfl
    | num q => rfl
    | str t => rfl
    | arr es => rfl
    | obj ms => rfl
  have main : ∀ e : Option Json,
      (applyReq (Req.fail now (some i) e) s).2 ≠ Resp.badRequest ∧
      (applyReq (Req.fail now (some i) e) s).2 ≠ Resp.notFound ∧
      ∃ j, jobById (stepStore (Req.fail now (some i) e) s) i = some j ∧
        j.error = some (failErrString e) := by
    intro e
    have hstep : applyReq (Req.fail now (some i) e) s = failOp now (some i) e s :=
      applyReq_fail_eq hgood now (some i) e
    have hbody := failOp_present hi hr now e
    by_cases hlt : r.attempts + 1 < r.maxAttempts
    · rw [if_pos hlt] at hbody
      refine ⟨?_, ?_, ?_⟩
      · intro hcon
        rw [hstep, hbody] at hcon
        exact Resp.noConfusion hcon
      · intro hcon
        rw [hstep, hbody] at hcon
        exact Resp.noConfusion hcon
      · refine ⟨{ r with
            status := "queued", updatedAt := some now, sortAt := some now,
            leaseUntil := none, error := some (failErrString e),
            attempts := r.attempts + 1,
            nextRunAt := some (now + failBackoff (r.attempts + 1)) }, ?_, rfl⟩
        show ((applyReq (Req.fail now (some i) e) s).1.find? fun j => j.id == i) = _
        rw [hstep, hbody]
        exact jobById_update_self (fun j => { j with status := "queued", updatedAt := some now, sortAt := some now, leaseUntil := none, error := some (failErrString e), attempts := r.attempts + 1, nextRunAt := some (now + failBackoff (r.attempts + 1)) }) (fun j => rfl) hr
    · rw [if_neg hlt] at hbody
      refine ⟨?_, ?_, ?_⟩
      · intro hcon
        rw [hstep, hbody] at hcon
        exact Resp.noConfusion hcon
      · intro hcon
        rw [hstep, hbody] at hcon
        exact Resp.noConfusion hcon
      · refine ⟨{ r with
            status := "failed", updatedAt := some now, sortAt := some now,
            leaseUntil := none, error := some (failErrString e),
            attempts := r.attempts + 1, nextRunAt := none }, ?_, rfl⟩
        show ((applyReq (Req.fail now (some i) e) s).1.find? fun j => j.id == i) = _
        rw [hstep, hbody]
        exact jobById_update_self (fun j => { j with status := "failed", updatedAt := some now, sortAt := some now, leaseUntil := none, error := some (failErrString e), attempts := r.attempts + 1, nextRunAt := none }) (fun j => rfl) hr
  constructor
  · intro e he
    have h := main e
    rw [werr e he] at h
    exact h
  · intro v hv
    have h := (main (some v)).2.2
    rw [werr2 v hv] at h
    exact h

/-! ## Helpers for the dequeue selection and terminal-frame claims -/

theorem jobById_of_mem {s : Store} (hnd : (s.map (fun j => j.id)).Nodup) {j : JobRow}
    (hj : j ∈ s) : jobById s j.id = some j := by
  induction s with
  | nil => cases hj
  | cons a t ih =>
    simp only [List.map_cons, List.nodup_cons] at hnd
    rcases List.mem_cons.mp hj with rfl | hjt
    · simp [jobById, List.find?_cons]
    · by_cases ha : a.id = j.id
      · exfalso
        apply hnd.1
        rw [ha]
        exact List.mem_map_of_mem (fun j => j.id) hjt
      · have hf : (a.id == j.id) = false := by simpa using ha
        simp only [jobById, List.find?_cons, hf, Bool.false_eq_true, if_false]
        exact ih hnd.2 hjt

theorem mem_id_inj {s : Store} (hnd : (s.map (fun j => j.id)).Nodup) {j₁ j₂ : JobRow}
    (h₁ : j₁ ∈ s) (h₂ : j₂ ∈ s) (hid : j₁.id = j₂.id) : j₁ = j₂ := by
  have e₁ := jobById_of_mem hnd h₁
  have e₂ := jobById_of_mem hnd h₂
  rw [hid] at e₁
  rw [e₁] at e₂
  exact Option.some_injective _ e₂

theorem stableMinBy_mem : ∀ {l : List JobRow} {m : JobRow}, stableMinBy l = some m → m ∈ l := by
  intro l
  induction l with
  | nil => intro m h; cases h
  | cons j rest ih =>
    intro m h
    simp only [stableMinBy] at h
    cases hrest : stableMinBy rest with
    | none =>
      rw [hrest] at h
      cases h
      exact List.mem_cons_self j rest
    | some b =>
      rw [hrest] at h
      dsimp only at h
      by_cases hlt : b.createdAt < j.createdAt
      · rw [if_pos hlt] at h
        cases h
        exact List.mem_cons_of_mem j (ih hrest)
      · rw [if_neg hlt] at h
        cases h
        exact List.mem_cons_self j rest

/-- Characterisation of ORDER BY createdAt ASC LIMIT 1 over a scan: the
selected row splits the list into a strictly-younger prefix and a
no-older suffix — the minimum of createdAt, first in scan order among
ties. -/
theorem stableMinBy_spec : ∀ {l : List JobRow} {m : JobRow}, stableMinBy l = some m →
    ∃ A B, l = A ++ m :: B ∧ (∀ a ∈ A, m.createdAt < a.createdAt) ∧
      (∀ b ∈ B, m.createdAt ≤ b.createdAt) := by
  intro l
  induction l with
  | nil => intro m h; cases h
  | cons j rest ih =>
    intro m h
    simp only [stableMinBy] at h
    cases hrest : stableMinBy rest with
    | none =>
      rw [hrest] at h
      cases h
      have hnil : rest = [] := by
        cases rest with
        | nil => rfl
        | cons x xs =>
          exfalso
          simp only [stableMinBy] at hrest
          cases hx : stableMinBy xs with
          | none => rw [hx] at hrest; cases hrest
          | some b =>
            rw [hx] at hrest
            dsimp only at hrest
            by_cases hlt : b.createdAt < x.createdAt
            · rw [if_pos hlt] at hrest; cases hrest
            · rw [if_neg hlt] at hrest; cases hrest
      subst hnil
      refine ⟨[], [], rfl, ?_, ?_⟩
      · intro a ha
        cases ha
      · intro b hb
        cases hb
    | some b =>
      rw [hrest] at h
      dsimp only at h
      rcases ih hrest with ⟨A, B, hsplit, hA, hB⟩
      by_cases hlt : b.createdAt < j.createdAt
      · rw [if_pos hlt] at h
        cases h
        refine ⟨j :: A, B, by rw [hsplit, List.cons_append], ?_, hB⟩
        intro a ha
        rcases List.mem_cons.mp ha with rfl | ha
        · exact hlt
        · exact hA a ha
      · rw [if_neg hlt] at h
        cases h
        refine ⟨[], rest, rfl, ?_, ?_⟩
        · intro a ha
          cases ha
        intro x hx
        have hjb : j.createdAt ≤ b.createdAt := by omega
        rw [hsplit] at hx
        rcases List.mem_append.mp hx with hx | hx
        · exact le_trans hjb (le_of_lt (hA x hx))
        · rcases List.mem_cons.mp hx with rfl | hx
          · exact hjb
          · exact le_trans hjb (hB x hx)

theorem enqueueOp_state (now : Int) (b : EnqueueBody) (s : Store) :
    (enqueueOp now b s).1 = s ∨ ∃ row, (enqueueOp now b s).1 = s ++ [row] := by
  unfold enqueueOp
  dsimp only
  split
  · split
    · exact Or.inl rfl
    · split
      · exact Or.inl rfl
      · exact Or.inr ⟨_, rfl⟩
  · exact Or.inl rfl

/-- The /complete handler with a non-empty id, unfolded to its UPDATE. -/
theorem completeOp_present {i : String} (hi : i ≠ "") (now : Int) (r : Option Json) (s : Store) :
    completeOp now (some i) r s =
      (s.map (fun j => if j.id == i then
          { j with status := "done", updatedAt := some now, sortAt := some now,
                   leaseUntil := none, result := some (jsonStringify (r.getD Json.null)),
                   error := none } else j),
       Resp.okText) := by
  unfold completeOp
  dsimp only
  rw [if_neg hi]

/-! ## C9 and the amended C3, C5, C6 -/

/-- C9: the Inspector operations /get, /stats and /list leave the job
table unchanged on every reachable state: their only write is the sortAt
backfill (line 155), which matches no rows because every enqueued job
already carries a non-null sortAt. -/
theorem c9_inspector_readonly (s : Store) (h : Reachable s) :
    (∀ id, stepStore (Req.get id) s = s) ∧
    stepStore Req.stats s = s ∧
    (∀ st lim cur, stepStore (Req.list st lim cur) s = s) := by
  obtain ⟨hg, _⟩ := reachable_inv h
  have hb := goodStore_backfill hg
  refine ⟨?_, ?_, ?_⟩
  · intro id
    show (getOp id (backfill s)).1 = s
    rw [hb]
    unfold getOp
    cases id with
    | none => rfl
    | some i =>
      dsimp only
      by_cases hi : i = ""
      · rw [if_pos hi]
      · rw [if_neg hi]
  · show (statsOp (backfill s)).1 = s
    rw [hb]
    rfl
  · intro st lim cur
    show (listOp st lim cur (backfill s)).1 = s
    rw [hb]
    rfl

/-- Witness for c9_inspector_readonly at a concrete reachable store. -/
theorem c9_inspector_readonly_witness :
    stepStore Req.stats (stepStore (Req.enqueue 1 (exBody "b" 5 none)) [])
      = stepStore (Req.enqueue 1 (exBody "b" 5 none)) [] ∧
    stepStore (Req.get (some "b")) (stepStore (Req.enqueue 1 (exBody "b" 5 none)) [])
      = stepStore (Req.enqueue 1 (exBody "b" 5 none)) [] ∧
    stepStore (Req.list none none none) (stepStore (Req.enqueue 1 (exBody "b" 5 none)) [])
      = stepStore (Req.enqueue 1 (exBody "b" 5 none)) [] := by
  have h := c9_inspector_readonly (stepStore (Req.enqueue 1 (exBody "b" 5 none)) [])
    (Reachable.step _ Reachable.empty)
  exact ⟨h.2.1, h.1 (some "b"), h.2.2 none none none⟩

/-- C3 (amended): /dequeue selects the first eligible row of the scan
attaining the minimal createdAt — ties on createdAt are broken by rowid
(insertion) order, not by id, because the SQL (line 387) orders by
createdAt alone.  The rest of the claim stands: when nothing is
eligible, the response is job:null and nothing changes; otherwise the
selected row gets status = processing, leaseUntil = now + 120000,
updatedAt = sortAt = now, nextRunAt = null, every other row is
untouched, and the response carries the row's id, type, target,
createdAt and the lease. -/
theorem c3_amended_dequeue_semantics (now : Int) (s : Store) (hgood : GoodStore s) :
    (s.filter (eligible now) = [] → applyReq (Req.dequeue now) s = (s, Resp.jobNull)) ∧
    (∀ m, stableMinBy (s.filter (eligible now)) = some m →
      (applyReq (Req.dequeue now) s).2
        = Resp.leased m.id m.type m.target m.createdAt (now + 120000) ∧
      m ∈ s ∧ eligible now m = true ∧
      (∀ j ∈ s, eligible now j = true → m.createdAt ≤ j.createdAt) ∧
      (∃ A B, s.filter (eligible now) = A ++ m :: B ∧ ∀ a ∈ A, m.createdAt < a.createdAt) ∧
      jobById (stepStore (Req.dequeue now) s) m.id
        = some { m with
                  status := "processing", updatedAt := some now, sortAt := some now,
                  leaseUntil := some (now + 120000), nextRunAt := none } ∧
      (∀ i2, i2 ≠ m.id → jobById (stepStore (Req.dequeue now) s) i2 = jobById s i2)) := by
  have hstep := applyReq_dequeue_eq hgood now
  constructor
  · intro hnil
    rw [hstep]
    unfold dequeueOp
    rw [hnil]
    rfl
  · intro m hm
    have hmem : m ∈ s := List.mem_of_mem_filter (stableMinBy_mem hm)
    have helig : eligible now m = true := List.of_mem_filter (stableMinBy_mem hm)
    have hbody : dequeueOp now s =
        (s.map (fun j => if j.id == m.id then
            { j with status := "processing", updatedAt := some now, sortAt := some now,
                     leaseUntil := some (now + leaseMs), nextRunAt := none } else j),
         Resp.leased m.id m.type m.target m.createdAt (now + leaseMs)) := by
      unfold dequeueOp
      rw [hm]
    rcases stableMinBy_spec hm with ⟨A, B, hsplit, hA, hB⟩
    refine ⟨by rw [hstep, hbody]; rfl, hmem, helig, ?_, ⟨A, B, hsplit, hA⟩, ?_, ?_⟩
    · intro j hj hje
      have hjf : j ∈ s.filter (eligible now) := List.mem_filter.mpr ⟨hj, hje⟩
      rw [hsplit] at hjf
      rcases List.mem_append.mp hjf with hx | hx
      · exact le_of_lt (hA j hx)
      · rcases List.mem_cons.mp hx with rfl | hx
        · exact le_refl _
        · exact hB j hx
    · show ((applyReq (Req.dequeue now) s).1.find? fun j => j.id == m.id) = _
      rw [hstep, hbody]
      exact jobById_update_self
        (fun j => { j with status := "processing", updatedAt := some now, sortAt := some now, leaseUntil := some (now + leaseMs), nextRunAt := none })
        (fun j => rfl) (jobById_of_mem hgood.1 hmem)
    · intro i2 hi2
      show ((applyReq (Req.dequeue now) s).1.find? fun j => j.id == i2) = _
      rw [hstep, hbody]
      exact jobById_update_frame
        (fun j => { j with status := "processing", updatedAt := some now, sortAt := some now, leaseUntil := some (now + leaseMs), nextRunAt := none })
        (fun j => rfl) hi2 s

/-- Witness for c3_amended_dequeue_semantics on trace3. -/
theorem c3_amended_dequeue_semantics_witness :
    (applyReq (Req.dequeue 100) trace3).2 = Resp.leased "b" "crawl" "t" 5 120100 := by
  have h := (c3_amended_dequeue_semantics 100 trace3 ⟨by decide, by decide⟩).2
    { id := "b", type := "crawl", target := "t", createdAt := 5, status := "queued",
      updatedAt := some 1, leaseUntil := none, result := none, error := none,
      attempts := 0, maxAttempts := 3, nextRunAt := none, sortAt := some 1 } (by decide)
  exact h.1

/-- A found row passes through an id-preserving row transform. -/
theorem jobById_append_of_found {s : Store} {i : String} {j : JobRow}
    (h : jobById s i = some j) (t : Store) : jobById (s ++ t) i = some j := by
  induction s with
  | nil => cases h
  | cons a u ih =>
    rw [List.cons_append]
    simp only [jobById, List.find?_cons] at h ⊢
    cases ha : a.id == i with
    | true =>
      rw [ha] at h
      exact h
    | false =>
      rw [ha] at h
      exact ih h

/-- C5 (amended): each job's attempts counter is monotonically
non-decreasing (for every operation, the row found under a given id
after the step has at least the attempts it had before), and in every
reachable state a failed row satisfies attempts ≥ maxAttempts and
nextRunAt = null.  The claimed global bound attempts ≤ maxAttempts does
not hold: /fail lacks a status gate and keeps incrementing attempts of
an already-terminal job past maxAttempts (see the counterexample). -/
theorem c5_amended_attempts_monotone (r : Req) (s : Store) (hgood : GoodStore s) (i : String)
    {j j2 : JobRow} (h1 : jobById s i = some j) (h2 : jobById (stepStore r s) i = some j2) :
    j.attempts ≤ j2.attempts ∧
    (∀ {t : Store}, Reachable t → ∀ x ∈ t, x.status = "failed" →
      x.maxAttempts ≤ x.attempts ∧ x.nextRunAt = none) := by
  refine ⟨?_, fun {t} ht => (reachable_inv ht).2⟩
  have hb := goodStore_backfill hgood
  have same : ∀ {u : Store}, jobById u i = some j → jobById u i = some j2 → j.attempts ≤ j2.attempts := by
    intro u e1 e2
    rw [e1] at e2
    cases e2
    exact le_refl _
  cases r with
  | enqueue now b =>
    replace h2 : jobById (enqueueOp now b s).1 i = some j2 := by
      have h2x : jobById (enqueueOp now b (backfill s)).1 i = some j2 := h2
      rwa [hb] at h2x
    rcases enqueueOp_state now b s with hst | ⟨row, hst⟩
    · rw [hst] at h2
      exact same h1 h2
    · rw [hst, jobById_append_of_found h1 [row]] at h2
      cases h2
      exact le_refl _
  | dequeue now =>
    replace h2 : jobById (dequeueOp now s).1 i = some j2 := by
      have h2x : jobById (dequeueOp now (backfill s)).1 i = some j2 := h2
      rwa [hb] at h2x
    rcases hsel : stableMinBy (s.filter (eligible now)) with _ | m
    · unfold dequeueOp at h2
      rw [hsel] at h2
      exact same h1 h2
    · unfold dequeueOp at h2
      rw [hsel] at h2
      dsimp only at h2
      by_cases hii : i = m.id
      · subst hii
        rw [jobById_update_self
          (fun x => { x with status := "processing", updatedAt := some now, sortAt := some now, leaseUntil := some (now + leaseMs), nextRunAt := none })
          (fun x => rfl) h1] at h2
        cases h2
        exact le_refl _
      · rw [jobById_update_frame (fun x => { x with status := "processing", updatedAt := some now, sortAt := some now, leaseUntil := some (now + leaseMs), nextRunAt := none }) (fun x => rfl) hii s] at h2
        exact same h1 h2
  | complete now ib res =>
    replace h2 : jobById (completeOp now ib res s).1 i = some j2 := by
      have h2x : jobById (completeOp now ib res (backfill s)).1 i = some j2 := h2
      rwa [hb] at h2x
    cases ib with
    | none => exact same h1 h2
    | some ii =>
      by_cases hiie : ii = ""
      · unfold completeOp at h2
        dsimp only at h2
        rw [if_pos hiie] at h2
        exact same h1 h2
      · rw [completeOp_present hiie now res s] at h2
        by_cases hii : i = ii
        · subst hii
          rw [jobById_update_self
            (fun x => { x with status := "done", updatedAt := some now, sortAt := some now, leaseUntil := none, result := some (jsonStringify (res.getD Json.null)), error := none })
            (fun x => rfl) h1] at h2
          cases h2
          exact le_refl _
        · rw [jobById_update_frame (fun x => { x with status := "done", updatedAt := some now, sortAt := some now, leaseUntil := none, result := some (jsonStringify (res.getD Json.null)), error := none }) (fun x => rfl) hii s] at h2
          exact same h1 h2
  | fail now ib e =>
    replace h2 : jobById (failOp now ib e s).1 i = some j2 := by
      have h2x : jobById (failOp now ib e (backfill s)).1 i = some j2 := h2
      rwa [hb] at h2x
    cases ib with
    | none => exact same h1 h2
    | some ii =>
      by_cases hiie : ii = ""
      · unfold failOp at h2
        dsimp only at h2
        rw [if_pos hiie] at h2
        exact same h1 h2
      · rcases hrow : jobById s ii with _ | row
        · unfold failOp at h2
          dsimp only at h2
          rw [if_neg hiie, hrow] at h2
          exact same h1 h2
        · rw [failOp_present hiie hrow now e] at h2
          by_cases hlt : row.attempts + 1 < row.maxAttempts
          · rw [if_pos hlt] at h2
            by_cases hii : i = ii
            · subst hii
              rw [h1] at hrow
              cases hrow
              rw [jobById_update_self
                (fun x => { x with status := "queued", updatedAt := some now, sortAt := some now, leaseUntil := none, error := some (failErrString e), attempts := j.attempts + 1, nextRunAt := some (now + failBackoff (j.attempts + 1)) })
                (fun x => rfl) h1] at h2
              cases h2
              show j.attempts ≤ j.attempts + 1
              omega
            · rw [jobById_update_frame (fun x => { x with status := "queued", updatedAt := some now, sortAt := some now, leaseUntil := none, error := some (failErrString e), attempts := row.attempts + 1, nextRunAt := some (now + failBackoff (row.attempts + 1)) }) (fun x => rfl) hii s] at h2
              exact same h1 h2
          · rw [if_neg hlt] at h2
            by_cases hii : i = ii
            · subst hii
              rw [h1] at hrow
              cases hrow
              rw [jobById_update_self
                (fun x => { x with status := "failed", updatedAt := some now, sortAt := some now, leaseUntil := none, error := some (failErrString e), attempts := j.attempts + 1, nextRunAt := none })
                (fun x => rfl) h1] at h2
              cases h2
              show j.attempts ≤ j.attempts + 1
              omega
            · rw [jobById_update_frame (fun x => { x with status := "failed", updatedAt := some now, sortAt := some now, leaseUntil := none, error := some (failErrString e), attempts := row.attempts + 1, nextRunAt := none }) (fun x => rfl) hii s] at h2
              exact same h1 h2
  | purge b =>
    replace h2 : jobById (purgeOp b s).1 i = some j2 := by
      have h2x : jobById (purgeOp b (backfill s)).1 i = some j2 := h2
      rwa [hb] at h2x
    cases b with
    | none => exact same h1 h2
    | some bm =>
      unfold purgeOp at h2
      dsimp only at h2
      have hmem2 := jobById_mem h2
      have hmem1 := jobById_mem h1
      have hj2s : j2 ∈ s := List.mem_of_mem_filter hmem2.1
      have : j2 = j := mem_id_inj hgood.1 hj2s hmem1.1 (by rw [hmem2.2, hmem1.2])
      rw [this]
  | get id =>
    replace h2 : jobById (getOp id s).1 i = some j2 := by
      have h2x : jobById (getOp id (backfill s)).1 i = some j2 := h2
      rwa [hb] at h2x
    have : (getOp id s).1 = s := by
      unfold getOp
      cases id with
      | none => rfl
      | some ii =>
        dsimp only
        by_cases hii : ii = ""
        · rw [if_pos hii]
        · rw [if_neg hii]
    rw [this] at h2
    exact same h1 h2
  | stats =>
    replace h2 : jobById (statsOp s).1 i = some j2 := by
      have h2x : jobById (statsOp (backfill s)).1 i = some j2 := h2
      rwa [hb] at h2x
    exact same h1 h2
  | list st lim cur =>
    replace h2 : jobById (listOp st lim cur s).1 i = some j2 := by
      have h2x : jobById (listOp st lim cur (backfill s)).1 i = some j2 := h2
      rwa [hb] at h2x
    exact same h1 h2

/-- Witness for c5_amended_attempts_monotone: failing the one queued job
of a singleton store raises attempts from 0 to 1. -/
theorem c5_amended_attempts_monotone_witness : (0 : Int) ≤ 1 := by
  have hh1 : jobById (stepStore (Req.enqueue 1 (exBody "b" 5 none)) []) "b" =
      some { id := "b", type := "crawl", target := "t", createdAt := 5, status := "queued",
             updatedAt := some 1, leaseUntil := none, result := none, error := none,
             attempts := 0, maxAttempts := 3, nextRunAt := none, sortAt := some 1 } := by decide
  have hh2 : jobById (stepStore (Req.fail 7 (some "b") none)
        (stepStore (Req.enqueue 1 (exBody "b" 5 none)) [])) "b" =
      some { id := "b", type := "crawl", target := "t", createdAt := 5, status := "queued",
             updatedAt := some 7, leaseUntil := none, result := none, error := some "unknown",
             attempts := 1, maxAttempts := 3, nextRunAt := some 10007, sortAt := some 7 } := by decide
  have h := c5_amended_attempts_monotone (Req.fail 7 (some "b") none)
    (stepStore (Req.enqueue 1 (exBody "b" 5 none)) []) ⟨by decide, by decide⟩ "b" hh1 hh2
  exact h.1

/-- C6 (amended): a terminal (done or failed) job is never selected or
changed by /dequeue (terminal rows fail the eligibility predicate) and
never changed by /enqueue (a duplicate id aborts the INSERT, a fresh id
only appends).  But /complete and /fail have no gate on status:
/complete sets any existing job to done, and /fail on a terminal job
increments attempts and re-queues it whenever attempts + 1 <
maxAttempts (see the counterexample); /purge is the remaining operation
and deletes terminal rows. -/
theorem c6_amended_terminal_frame (s : Store) (hgood : GoodStore s) (j : JobRow) (hj : j ∈ s)
    (hterm : j.status = "done" ∨ j.status = "failed") :
    (∀ now, jobById (stepStore (Req.dequeue now) s) j.id = some j) ∧
    (∀ now b, jobById (stepStore (Req.enqueue now b) s) j.id = some j) ∧
    (∀ now r, jobById (stepStore (Req.complete now (some j.id) r) s) j.id
        = some { j with status := "done", updatedAt := some now, sortAt := some now, leaseUntil := none, result := some (jsonStringify (r.getD Json.null)), error := none }) ∧
    (∀ now e, j.attempts + 1 < j.maxAttempts →
      (jobById (stepStore (Req.fail now (some j.id) e) s) j.id).map (fun x => x.status)
        = some "queued") := by
  have hid : jobById s j.id = some j := jobById_of_mem hgood.1 hj
  have hjne : j.id ≠ "" := (hgood.2 j hj).2
  have hine : ∀ now, eligible now j = false := by
    intro now
    rcases hterm with hst | hst
    · simp [eligible, hst]
    · simp [eligible, hst]
  refine ⟨?_, ?_, ?_, ?_⟩
  · intro now
    have hstep : (applyReq (Req.dequeue now) s).1 = (dequeueOp now s).1 := by
      rw [applyReq_dequeue_eq hgood now]
    show jobById (applyReq (Req.dequeue now) s).1 j.id = some j
    rw [hstep]
    unfold dequeueOp
    cases hsel : stableMinBy (s.filter (eligible now)) with
    | none => exact hid
    | some m =>
      dsimp only
      have hms : m ∈ s := List.mem_of_mem_filter (stableMinBy_mem hsel)
      have hme : eligible now m = true := List.of_mem_filter (stableMinBy_mem hsel)
      have hne : j.id ≠ m.id := by
        intro hcon
        have : j = m := mem_id_inj hgood.1 hj hms hcon
        rw [← this] at hme
        rw [hine now] at hme
        cases hme
      rw [jobById_update_frame (fun x => { x with status := "processing", updatedAt := some now, sortAt := some now, leaseUntil := some (now + leaseMs), nextRunAt := none }) (fun x => rfl) hne s]
      exact hid
  · intro now b
    have hstep : (applyReq (Req.enqueue now b) s).1 = (enqueueOp now b s).1 := by
      rw [applyReq_enqueue_eq hgood now b]
    show jobById (applyReq (Req.enqueue now b) s).1 j.id = some j
    rw [hstep]
    rcases enqueueOp_state now b s with hst | ⟨row, hst⟩
    · rw [hst]
      exact hid
    · rw [hst]
      exact jobById_append_of_found hid [row]
  · intro now r
    have hstep : (applyReq (Req.complete now (some j.id) r) s).1 = (completeOp now (some j.id) r s).1 := by
      rw [applyReq_complete_eq hgood now (some j.id) r]
    show jobById (applyReq (Req.complete now (some j.id) r) s).1 j.id = _
    rw [hstep, completeOp_present hjne now r s]
    exact jobById_update_self (fun x => { x with status := "done", updatedAt := some now, sortAt := some now, leaseUntil := none, result := some (jsonStringify (r.getD Json.null)), error := none }) (fun x => rfl) hid
  · intro now e hlt
    have hstep : (applyReq (Req.fail now (some j.id) e) s).1 = (failOp now (some j.id) e s).1 := by
      rw [applyReq_fail_eq hgood now (some j.id) e]
    show ((jobById (applyReq (Req.fail now (some j.id) e) s).1 j.id).map (fun x => x.status)) = _
    rw [hstep, failOp_present hjne hid now e, if_pos hlt]
    rw [jobById_update_self (fun x => { x with status := "queued", updatedAt := some now, sortAt := some now, leaseUntil := none, error := some (failErrString e), attempts := j.attempts + 1, nextRunAt := some (now + failBackoff (j.attempts + 1)) }) (fun x => rfl) hid]
    rfl

/-- Witness for c6_amended_terminal_frame on trace1, whose job A is
done. -/
theorem c6_amended_terminal_frame_witness :
    (jobById (stepStore (Req.fail 500 (some "A") none) trace1) "A").map (fun x => x.status)
      = some "queued" := by
  have h := c6_amended_terminal_frame trace1 ⟨by decide, by decide⟩
    { id := "A", type := "crawl", target := "t", createdAt := 100, status := "done",
      updatedAt := some 400, leaseUntil := none, result := some "\"r\"", error := none,
      attempts := 1, maxAttempts := 3, nextRunAt := some 10300, sortAt := some 400 }
    (by decide) (Or.inl rfl)
  exact h.2.2.2 500 none (by decide)

/-- Witness for c10_fail_error_coercion on a singleton store: a /fail
with no error body stores "unknown". -/
theorem c10_fail_error_coercion_witness :
    ∃ j, jobById (stepStore (Req.fail 7 (some "b") none)
        (stepStore (Req.enqueue 1 (exBody "b" 5 none)) [])) "b" = some j ∧
      j.error = some "unknown" := by
  have h := c10_fail_error_coercion 7 "b" (stepStore (Req.enqueue 1 (exBody "b" 5 none)) [])
    { id := "b", type := "crawl", target := "t", createdAt := 5, status := "queued",
      updatedAt := some 1, leaseUntil := none, result := none, error := none,
      attempts := 0, maxAttempts := 3, nextRunAt := none, sortAt := some 1 }
    (by decide) (by constructor <;> decide) (by decide)
  exact ((h.1 none (Or.inl rfl)).2.2)

/-! ## Base64 round trip -/

theorem b64Val_b64Char : ∀ n : Nat, n < 64 → b64Val (b64Char n) = some n := by decide

theorem b64Char_ne_pad : ∀ n : Nat, n < 64 → b64Char n ≠ '=' := by decide

theorem b64Core_mem_ne_pad : ∀ {bs : List Nat}, (∀ b ∈ bs, b < 256) →
    ∀ c ∈ b64Core bs, c ≠ '=' := by
  intro bs
  induction bs using b64Core.induct with
  | case1 =>
    intro _ c hc
    cases hc
  | case2 a =>
    intro hb c hc
    have ha : a < 256 := hb a (by simp)
    simp only [b64Core, List.mem_cons, List.not_mem_nil, or_false] at hc
    rcases hc with rfl | rfl
    · exact b64Char_ne_pad _ (by omega)
    · exact b64Char_ne_pad _ (by omega)
  | case3 a b =>
    intro hb c hc
    have ha : a < 256 := hb a (by simp)
    have hbb : b < 256 := hb b (by simp)
    simp only [b64Core, List.mem_cons, List.not_mem_nil, or_false] at hc
    rcases hc with rfl | rfl | rfl
    · exact b64Char_ne_pad _ (by omega)
    · exact b64Char_ne_pad _ (by omega)
    · exact b64Char_ne_pad _ (by omega)
  | case4 a b c rest ih =>
    intro hb x hx
    have ha : a < 256 := hb a (by simp)
    have hbb : b < 256 := hb b (by simp)
    have hc : c < 256 := hb c (by simp)
    simp only [b64Core, List.mem_cons] at hx
    rcases hx with rfl | rfl | rfl | rfl | hx
    · exact b64Char_ne_pad _ (by omega)
    · exact b64Char_ne_pad _ (by omega)
    · exact b64Char_ne_pad _ (by omega)
    · exact b64Char_ne_pad _ (by omega)
    · exact ih (fun y hy => hb y (by simp [hy])) x hx

theorem b64Core_length_mod : ∀ bs : List Nat, (b64Core bs).length % 4 =
    (if bs.length % 3 = 1 then 2 else if bs.length % 3 = 2 then 3 else 0) := by
  intro bs
  induction bs using b64Core.induct with
  | case1 => rfl
  | case2 a => rfl
  | case3 a b => rfl
  | case4 a b c rest ih =>
    have h1 : (b64Core (a :: b :: c :: rest)).length = 4 + (b64Core rest).length := by
      simp [b64Core]
      omega
    have h2 : (a :: b :: c :: rest).length % 3 = rest.length % 3 := by
      simp only [List.length_cons]
      omega
    rw [h1, h2, Nat.add_comm 4, Nat.add_mod_right, ih]

theorem b64DecodeCore_b64Core : ∀ {bs : List Nat}, (∀ b ∈ bs, b < 256) →
    b64DecodeCore (b64Core bs) = some bs := by
  intro bs
  induction bs using b64Core.induct with
  | case1 => intro _; rfl
  | case2 a =>
    intro hb
    have ha : a < 256 := hb a (by simp)
    show b64DecodeCore [b64Char (a / 4), b64Char (a % 4 * 16)] = some [a]
    unfold b64DecodeCore
    rw [b64Val_b64Char _ (by omega), b64Val_b64Char _ (by omega)]
    dsimp only
    have e1 : a / 4 * 4 + a % 4 * 16 / 16 = a := by omega
    rw [e1]
  | case3 a b =>
    intro hb
    have ha : a < 256 := hb a (by simp)
    have hbb : b < 256 := hb b (by simp)
    show b64DecodeCore [b64Char (a / 4), b64Char (a % 4 * 16 + b / 16), b64Char (b % 16 * 4)]
        = some [a, b]
    unfold b64DecodeCore
    rw [b64Val_b64Char _ (by omega), b64Val_b64Char _ (by omega), b64Val_b64Char _ (by omega)]
    dsimp only
    have e1 : a / 4 * 4 + (a % 4 * 16 + b / 16) / 16 = a := by omega
    have e2 : (a % 4 * 16 + b / 16) % 16 * 16 + b % 16 * 4 / 4 = b := by omega
    rw [e1, e2]
  | case4 a b c rest ih =>
    intro hb
    have ha : a < 256 := hb a (by simp)
    have hbb : b < 256 := hb b (by simp)
    have hc : c < 256 := hb c (by simp)
    show b64DecodeCore (b64Char (a / 4) :: b64Char (a % 4 * 16 + b / 16) ::
        b64Char (b % 16 * 4 + c / 64) :: b64Char (c % 64) :: b64Core rest) = some (a :: b :: c :: rest)
    unfold b64DecodeCore
    rw [b64Val_b64Char _ (by omega), b64Val_b64Char _ (by omega), b64Val_b64Char _ (by omega),
        b64Val_b64Char _ (by omega)]
    dsimp only
    rw [ih (fun y hy => hb y (by simp [hy]))]
    have e1 : a / 4 * 4 + (a % 4 * 16 + b / 16) / 16 = a := by omega
    have e2 : (a % 4 * 16 + b / 16) % 16 * 16 + (b % 16 * 4 + c / 64) / 4 = b := by omega
    have e3 : (b % 16 * 4 + c / 64) % 4 * 64 + c % 64 = c := by omega
    rw [e1, e2, e3]
    rfl

theorem takeWhile_pad_core {L : List Char} (h : ∀ c ∈ L, c ≠ '=') :
    L.reverse.takeWhile (fun c => c = '=') = [] := by
  cases hrev : L.reverse with
  | nil => rfl
  | cons c t =>
    have hcL : c ∈ L := by
      rw [← List.mem_reverse, hrev]
      exact List.mem_cons_self c t
    rw [List.takeWhile_cons]
    have hd : (decide (c = '=')) = false := by
      simp [h c hcL]
    rw [hd]
    simp

theorem base64_roundtrip {bs : List Nat} (hb : ∀ b ∈ bs, b < 256) :
    base64Decode (String.mk (base64Encode bs)) = some bs := by
  have hnp : ∀ c ∈ b64Core bs, c ≠ '=' := b64Core_mem_ne_pad hb
  have hlm := b64Core_length_mod bs
  have hcore := b64DecodeCore_b64Core hb
  have htk := takeWhile_pad_core hnp
  unfold base64Decode base64Encode
  dsimp only
  by_cases h1 : bs.length % 3 = 1
  · rw [if_pos h1]
    have hL : (b64Core bs).length % 4 = 2 := by rw [hlm, if_pos h1]
    have hlen : (b64Core bs ++ ['=', '=']).length % 4 = 0 := by
      rw [List.length_append]
      simp only [List.length_cons, List.length_nil]
      omega
    rw [if_pos hlen]
    have hrev : (b64Core bs ++ ['=', '=']).reverse = '=' :: '=' :: (b64Core bs).reverse := by
      rw [List.reverse_append]
      rfl
    rw [hrev, List.takeWhile_cons, List.takeWhile_cons]
    have hdt : (decide ('=' = '=')) = true := by decide
    rw [hdt]
    simp only [if_true]
    rw [htk]
    simp only [List.length_cons, List.length_nil]
    have hmin : Min.min 2 (0 + 1 + 1) = 2 := by omega
    rw [hmin]
    simp only [List.drop_succ_cons, List.drop_zero, List.reverse_reverse]
    rw [if_neg (by omega)]
    exact hcore
  · by_cases h2 : bs.length % 3 = 2
    · rw [if_neg h1, if_pos h2]
      have hL : (b64Core bs).length % 4 = 3 := by rw [hlm, if_neg h1, if_pos h2]
      have hlen : (b64Core bs ++ ['=']).length % 4 = 0 := by
        rw [List.length_append]
        simp only [List.length_cons, List.length_nil]
        omega
      rw [if_pos hlen]
      have hrev : (b64Core bs ++ ['=']).reverse = '=' :: (b64Core bs).reverse := by
        rw [List.reverse_append]
        rfl
      rw [hrev, List.takeWhile_cons]
      have hdt : (decide ('=' = '=')) = true := by decide
      rw [hdt]
      simp only [if_true]
      rw [htk]
      simp only [List.length_cons, List.length_nil]
      have hmin : Min.min 2 (0 + 1) = 1 := by omega
      rw [hmin]
      simp only [List.drop_succ_cons, List.drop_zero, List.reverse_reverse]
      rw [if_neg (by omega)]
      exact hcore
    · rw [if_neg h1, if_neg h2]
      have hL : (b64Core bs).length % 4 = 0 := by rw [hlm, if_neg h1, if_neg h2]
      rw [List.append_nil, if_pos hL, htk]
      simp only [List.length_nil, Nat.min_zero, List.drop_zero, List.reverse_reverse]
      rw [if_neg (by omega)]
      exact hcore

theorem char_toNat_valid (c : Char) :
    c.toNat < 55296 ∨ (57344 ≤ c.toNat ∧ c.toNat < 1114112) := by
  have h := c.valid
  unfold UInt32.isValidChar Nat.isValidChar at h
  rcases h with h | ⟨h1, h2⟩
  · left; exact h
  · right; exact ⟨h1, h2⟩

theorem utf8DecodeAux_nil (fuel : Nat) : utf8DecodeAux fuel [] = some [] := by
  cases fuel <;> rfl

theorem utf8DecodeAux_encodeChar (c : Char) (rest : List Nat) (fuel : Nat) :
    utf8DecodeAux (fuel + 1) (utf8EncodeChar c ++ rest) =
      (utf8DecodeAux fuel rest).map (fun cs => c :: cs) := by
  have hval := char_toNat_valid c
  have hofn : Char.ofNat c.toNat = c := Char.ofNat_toNat c
  unfold utf8EncodeChar
  dsimp only
  by_cases h1 : c.toNat < 128
  · rw [if_pos h1]
    show utf8DecodeAux (fuel + 1) (c.toNat :: rest) = _
    conv_lhs => unfold utf8DecodeAux
    rw [if_pos h1, hofn]
  · rw [if_neg h1]
    by_cases h2 : c.toNat < 2048
    · rw [if_pos h2]
      show utf8DecodeAux (fuel + 1) ((192 + c.toNat / 64) :: (128 + c.toNat % 64) :: rest) = _
      conv_lhs => unfold utf8DecodeAux
      rw [if_neg (by omega), if_neg (by omega), if_pos (by omega)]
      dsimp only
      rw [if_neg (by simp)]
      have g0 : ((128 + c.toNat % 64) :: rest).getD 0 0 = 128 + c.toNat % 64 := rfl
      have gd : List.drop 1 ((128 + c.toNat % 64) :: rest) = rest := rfl
      rw [g0, gd]
      rw [if_pos (by omega : (128 ≤ 128 + c.toNat % 64 ∧ 128 + c.toNat % 64 < 192))]
      have e : (192 + c.toNat / 64 - 192) * 64 + (128 + c.toNat % 64 - 128) = c.toNat := by
        omega
      rw [e, hofn]
    · rw [if_neg h2]
      by_cases h3 : c.toNat < 65536
      · rw [if_pos h3]
        show utf8DecodeAux (fuel + 1) ((224 + c.toNat / 4096) :: (128 + c.toNat / 64 % 64) ::
            (128 + c.toNat % 64) :: rest) = _
        conv_lhs => unfold utf8DecodeAux
        rw [if_neg (by omega), if_neg (by omega), if_neg (by omega), if_pos (by omega)]
        dsimp only
        rw [if_neg (by simp)]
        have g0 : ((128 + c.toNat / 64 % 64) :: (128 + c.toNat % 64) :: rest).getD 0 0 =
            128 + c.toNat / 64 % 64 := rfl
        have g1 : ((128 + c.toNat / 64 % 64) :: (128 + c.toNat % 64) :: rest).getD 1 0 =
            128 + c.toNat % 64 := rfl
        have gd : List.drop 2 ((128 + c.toNat / 64 % 64) :: (128 + c.toNat % 64) :: rest) =
            rest := rfl
        rw [g0, g1, gd]
        rw [if_pos (by omega : ((128 ≤ 128 + c.toNat / 64 % 64 ∧ 128 + c.toNat / 64 % 64 < 192) ∧
              128 ≤ 128 + c.toNat % 64 ∧ 128 + c.toNat % 64 < 192))]
        have e : (224 + c.toNat / 4096 - 224) * 4096 + (128 + c.toNat / 64 % 64 - 128) * 64 +
            (128 + c.toNat % 64 - 128) = c.toNat := by omega
        rw [e]
        rw [if_pos (by omega : (2048 ≤ c.toNat ∧ (c.toNat < 55296 ∨ 57344 ≤ c.toNat)))]
        rw [hofn]
      · rw [if_neg h3]
        show utf8DecodeAux (fuel + 1) ((240 + c.toNat / 262144) :: (128 + c.toNat / 4096 % 64) ::
            (128 + c.toNat / 64 % 64) :: (128 + c.toNat % 64) :: rest) = _
        conv_lhs => unfold utf8DecodeAux
        rw [if_neg (by omega), if_neg (by omega), if_neg (by omega), if_neg (by omega),
            if_pos (by omega)]
        dsimp only
        rw [if_neg (by simp)]
        have g0 : ((128 + c.toNat / 4096 % 64) :: (128 + c.toNat / 64 % 64) ::
            (128 + c.toNat % 64) :: rest).getD 0 0 = 128 + c.toNat / 4096 % 64 := rfl
        have g1 : ((128 + c.toNat / 4096 % 64) :: (128 + c.toNat / 64 % 64) ::
            (128 + c.toNat % 64) :: rest).getD 1 0 = 128 + c.toNat / 64 % 64 := rfl
        have g2 : ((128 + c.toNat / 4096 % 64) :: (128 + c.toNat / 64 % 64) ::
            (128 + c.toNat % 64) :: rest).getD 2 0 = 128 + c.toNat % 64 := rfl
        have gd : List.drop 3 ((128 + c.toNat / 4096 % 64) :: (128 + c.toNat / 64 % 64) ::
            (128 + c.toNat % 64) :: rest) = rest := rfl
        rw [g0, g1, g2, gd]
        rw [if_pos (by omega : ((128 ≤ 128 + c.toNat / 4096 % 64 ∧ 128 + c.toNat / 4096 % 64 < 192) ∧
              (128 ≤ 128 + c.toNat / 64 % 64 ∧ 128 + c.toNat / 64 % 64 < 192) ∧
              128 ≤ 128 + c.toNat % 64 ∧ 128 + c.toNat % 64 < 192))]
        have e : (240 + c.toNat / 262144 - 240) * 262144 + (128 + c.toNat / 4096 % 64 - 128) * 4096 +
            (128 + c.toNat / 64 % 64 - 128) * 64 + (128 + c.toNat % 64 - 128) = c.toNat := by omega
        rw [e]
        rw [if_pos (by omega : (65536 ≤ c.toNat ∧ c.toNat < 1114112))]
        rw [hofn]

theorem utf8DecodeAux_encode (cs : List Char) :
    ∀ fuel : Nat, utf8DecodeAux (cs.length + fuel) (utf8Encode cs) = some cs := by
  induction cs with
  | nil =>
    intro fuel
    show utf8DecodeAux (0 + fuel) [] = some []
    rw [Nat.zero_add]
    exact utf8DecodeAux_nil fuel
  | cons c t ih =>
    intro fuel
    show utf8DecodeAux (t.length + 1 + fuel) (utf8EncodeChar c ++ utf8Encode t) = some (c :: t)
    have hfl : t.length + 1 + fuel = (t.length + fuel) + 1 := by omega
    rw [hfl, utf8DecodeAux_encodeChar, ih fuel]
    rfl

theorem utf8EncodeChar_length_pos (c : Char) : 1 ≤ (utf8EncodeChar c).length := by
  unfold utf8EncodeChar
  dsimp only
  by_cases h1 : c.toNat < 128
  · rw [if_pos h1]; simp
  · rw [if_neg h1]
    by_cases h2 : c.toNat < 2048
    · rw [if_pos h2]; simp
    · rw [if_neg h2]
      by_cases h3 : c.toNat < 65536
      · rw [if_pos h3]; simp
      · rw [if_neg h3]; simp

theorem utf8Encode_length_ge (cs : List Char) : cs.length ≤ (utf8Encode cs).length := by
  induction cs with
  | nil => simp [utf8Encode]
  | cons c t ih =>
    show t.length + 1 ≤ (utf8EncodeChar c ++ utf8Encode t).length
    rw [List.length_append]
    have := utf8EncodeChar_length_pos c
    omega

theorem utf8Decode_encode (cs : List Char) : utf8Decode (utf8Encode cs) = some cs := by
  unfold utf8Decode
  have hge := utf8Encode_length_ge cs
  have he : (utf8Encode cs).length = cs.length + ((utf8Encode cs).length - cs.length) := by
    omega
  rw [he, utf8DecodeAux_encode]

/-! ### Decimal printing inverts through digitsLoop -/

theorem char_toNat_ofNat_small (m : Nat) (h : m < 55296) : (Char.ofNat m).toNat = m := by
  unfold Char.ofNat
  rw [dif_pos (Or.inl h)]
  rfl

theorem digitChar_toNat (n : Nat) (h : n < 10) : (digitChar n).toNat = 48 + n :=
  char_toNat_ofNat_small _ (by omega)

theorem isDigitChar_digitChar (n : Nat) (h : n < 10) : isDigitChar (digitChar n) = true := by
  unfold isDigitChar
  rw [digitChar_toNat n h]
  simp
  omega

theorem digitVal_digitChar (n : Nat) (h : n < 10) : digitVal (digitChar n) = n := by
  unfold digitVal
  rw [digitChar_toNat n h]
  omega

theorem digitChar_ne_of_lt (n : Nat) (h : n < 10) (hn : 0 < n) : digitChar n ≠ '0' := by
  intro hcon
  have := congrArg Char.toNat hcon
  rw [digitChar_toNat n h] at this
  have h0 : ('0' : Char).toNat = 48 := by decide
  rw [h0] at this
  omega

theorem digitsLoop_stop (cs : List Char) (acc cnt : Nat)
    (h : ∀ c, cs.head? = some c → isDigitChar c = false) :
    digitsLoop cs acc cnt = (acc, cnt, cs) := by
  cases cs with
  | nil => rfl
  | cons c cs2 =>
    conv_lhs => unfold digitsLoop
    rw [h c rfl]
    simp

theorem digitsLoop_cons_digit (c : Char) (cs : List Char) (acc cnt : Nat)
    (h : isDigitChar c = true) :
    digitsLoop (c :: cs) acc cnt = digitsLoop cs (acc * 10 + digitVal c) (cnt + 1) := by
  conv_lhs => unfold digitsLoop
  rw [h]
  simp

theorem natDigitsAux_spec (fuel : Nat) : ∀ n, n < fuel →
    (∀ c ∈ natDigitsAux fuel n, isDigitChar c = true) ∧ natDigitsAux fuel n ≠ [] := by
  induction fuel with
  | zero => intro n h; omega
  | succ f ih =>
    intro n h
    by_cases h10 : n < 10
    · have e : natDigitsAux (f + 1) n = [digitChar n] := by
        conv_lhs => unfold natDigitsAux
        rw [if_pos h10]
      rw [e]
      refine ⟨?_, by simp⟩
      intro c hc
      simp at hc
      rw [hc]
      exact isDigitChar_digitChar n h10
    · have e : natDigitsAux (f + 1) n = natDigitsAux f (n / 10) ++ [digitChar (n % 10)] := by
        conv_lhs => unfold natDigitsAux
        rw [if_neg h10]
      rw [e]
      obtain ⟨ihall, ihne⟩ := ih (n / 10) (by omega)
      constructor
      · intro c hc
        rw [List.mem_append] at hc
        rcases hc with hc | hc
        · exact ihall c hc
        · simp at hc
          rw [hc]
          exact isDigitChar_digitChar _ (by omega)
      · intro hcon
        rcases List.append_eq_nil.mp hcon with ⟨h1, _⟩
        exact ihne h1

theorem digitsLoop_natDigitsAux (fuel : Nat) : ∀ n, n < fuel →
    ∀ (rest : List Char) (acc cnt : Nat),
    digitsLoop (natDigitsAux fuel n ++ rest) acc cnt =
      digitsLoop rest (acc * 10 ^ (natDigitsAux fuel n).length + n)
        (cnt + (natDigitsAux fuel n).length) := by
  induction fuel with
  | zero => intro n h; omega
  | succ f ih =>
    intro n h rest acc cnt
    by_cases h10 : n < 10
    · have e : natDigitsAux (f + 1) n = [digitChar n] := by
        conv_lhs => unfold natDigitsAux
        rw [if_pos h10]
      rw [e, List.singleton_append,
          digitsLoop_cons_digit _ _ _ _ (isDigitChar_digitChar n h10),
          digitVal_digitChar n h10]
      norm_num
    · have e : natDigitsAux (f + 1) n = natDigitsAux f (n / 10) ++ [digitChar (n % 10)] := by
        conv_lhs => unfold natDigitsAux
        rw [if_neg h10]
      rw [e, List.append_assoc, List.singleton_append,
          ih (n / 10) (by omega) (digitChar (n % 10) :: rest) acc cnt,
          digitsLoop_cons_digit _ _ _ _ (isDigitChar_digitChar _ (by omega)),
          digitVal_digitChar _ (by omega)]
      have hL : (natDigitsAux f (n / 10) ++ [digitChar (n % 10)]).length =
          (natDigitsAux f (n / 10)).length + 1 := by simp
      rw [hL]
      have hn : n / 10 * 10 + n % 10 = n := by omega
      have hv : (acc * 10 ^ (natDigitsAux f (n / 10)).length + n / 10) * 10 + n % 10 =
          acc * 10 ^ ((natDigitsAux f (n / 10)).length + 1) + n := by
        calc (acc * 10 ^ (natDigitsAux f (n / 10)).length + n / 10) * 10 + n % 10
            = acc * (10 ^ (natDigitsAux f (n / 10)).length * 10) + (n / 10 * 10 + n % 10) := by
              ring
          _ = acc * 10 ^ ((natDigitsAux f (n / 10)).length + 1) + n := by
              rw [hn, ← pow_succ]
      rw [hv, Nat.add_assoc]

theorem natDigits_all_digits (n : Nat) : ∀ c ∈ natDigits n, isDigitChar c = true :=
  (natDigitsAux_spec (n + 1) n (by omega)).1

theorem natDigits_ne_nil (n : Nat) : natDigits n ≠ [] :=
  (natDigitsAux_spec (n + 1) n (by omega)).2

theorem digitsLoop_natDigits (n : Nat) (rest : List Char) (acc cnt : Nat) :
    digitsLoop (natDigits n ++ rest) acc cnt =
      digitsLoop rest (acc * 10 ^ (natDigits n).length + n) (cnt + (natDigits n).length) :=
  digitsLoop_natDigitsAux (n + 1) n (by omega) rest acc cnt

theorem natDigitsAux_head_ne_zero (fuel : Nat) : ∀ n, n < fuel → 0 < n →
    ∀ c, (natDigitsAux fuel n).head? = some c → c ≠ '0' := by
  induction fuel with
  | zero => intro n h; omega
  | succ f ih =>
    intro n h hn c hc
    by_cases h10 : n < 10
    · have e : natDigitsAux (f + 1) n = [digitChar n] := by
        conv_lhs => unfold natDigitsAux
        rw [if_pos h10]
      rw [e] at hc
      simp at hc
      rw [← hc]
      exact digitChar_ne_of_lt n h10 hn
    · have e : natDigitsAux (f + 1) n = natDigitsAux f (n / 10) ++ [digitChar (n % 10)] := by
        conv_lhs => unfold natDigitsAux
        rw [if_neg h10]
      rw [e] at hc
      obtain ⟨a, A, hA⟩ := List.exists_cons_of_ne_nil ((natDigitsAux_spec f (n / 10) (by omega)).2)
      rw [hA] at hc
      simp at hc
      rw [← hc]
      exact ih (n / 10) (by omega) (by omega) a (by rw [hA]; rfl)

theorem natDigits_head_ne_zero (n : Nat) (hn : 0 < n) :
    ∀ c, (natDigits n).head? = some c → c ≠ '0' :=
  natDigitsAux_head_ne_zero (n + 1) n (by omega) hn

theorem natDigits_zero : natDigits 0 = ['0'] := by decide

/-- The stop condition for number parsing: the remainder starts with
none of digit, dot, e, E. -/
def numStop (rest : List Char) : Prop :=
  ∀ c, rest.head? = some c → isDigitChar c = false ∧ c ≠ '.' ∧ c ≠ 'e' ∧ c ≠ 'E'

theorem numStop_not_digit {rest : List Char} (h : numStop rest) :
    ∀ c, rest.head? = some c → isDigitChar c = false := fun c hc => (h c hc).1

theorem numStop_not_dot {rest : List Char} (h : numStop rest) :
    ¬(rest.head? = some '.') := by
  intro hcon
  exact (h '.' hcon).2.1 rfl

theorem numStop_not_e {rest : List Char} (h : numStop rest) :
    ¬(rest.head? = some 'e' ∨ rest.head? = some 'E') := by
  intro hcon
  rcases hcon with hcon | hcon
  · exact (h 'e' hcon).2.2.1 rfl
  · exact (h 'E' hcon).2.2.2 rfl

theorem parseNumber_natDigits (m : Nat) (rest : List Char) (hstop : numStop rest) :
    parseNumber (natDigits m ++ rest) = some ((m : ℚ), rest) := by
  obtain ⟨a, A2, hA⟩ := List.exists_cons_of_ne_nil (natDigits_ne_nil m)
  have haDigit : isDigitChar a = true := natDigits_all_digits m a (by rw [hA]; exact List.mem_cons_self a A2)
  have haNat : 48 ≤ a.toNat ∧ a.toNat ≤ 57 := by
    unfold isDigitChar at haDigit
    simp at haDigit
    exact haDigit
  have hdash : ('-' : Char).toNat = 45 := by decide
  have ha1 : ¬((a :: (A2 ++ rest)).head? = some '-') := by
    simp only [List.head?_cons, Option.some.injEq]
    intro hcon
    rw [hcon] at haNat
    rw [hdash] at haNat
    omega
  have hdl : digitsLoop (a :: (A2 ++ rest)) 0 0 = (m, A2.length + 1, rest) := by
    have h1 := digitsLoop_natDigits m rest 0 0
    rw [digitsLoop_stop rest _ _ (numStop_not_digit hstop)] at h1
    rw [hA] at h1
    simp only [List.cons_append] at h1
    simpa using h1
  unfold parseNumber
  rw [hA]
  simp only [List.cons_append]
  simp only [if_neg ha1]
  simp only [List.head?_cons, Option.some.injEq]
  rw [haDigit]
  simp only [if_true]
  by_cases hm : m = 0
  · have hA0 : a = '0' ∧ A2 = [] := by
      rw [hm, natDigits_zero] at hA
      have h1 := List.cons.inj hA.symm
      exact ⟨h1.1, h1.2⟩
    obtain ⟨ha0a, ha0A⟩ := hA0
    rw [if_pos ha0a]
    dsimp only
    rw [ha0A]
    simp only [List.nil_append, List.tail_cons]
    rw [if_neg (numStop_not_dot hstop)]
    dsimp only
    rw [if_neg (numStop_not_e hstop)]
    dsimp only
    rw [if_pos (by omega : (0 : Int) ≤ 0 - (0 : Nat))]
    rw [hm]
    norm_num
  · have ha0 : ¬(a = '0') := by
      have := natDigits_head_ne_zero m (by omega) a (by rw [hA]; rfl)
      exact this
    rw [if_neg ha0]
    rw [hdl]
    dsimp only
    rw [if_neg (numStop_not_dot hstop)]
    dsimp only
    rw [if_neg (numStop_not_e hstop)]
    dsimp only
    rw [if_pos (by omega : (0 : Int) ≤ 0 - (0 : Nat))]
    norm_num

theorem parseNumber_neg_natDigits (m : Nat) (rest : List Char) (hstop : numStop rest) :
    parseNumber ('-' :: (natDigits m ++ rest)) = some ((-(m : Int) : ℚ), rest) := by
  obtain ⟨a, A2, hA⟩ := List.exists_cons_of_ne_nil (natDigits_ne_nil m)
  have haDigit : isDigitChar a = true := natDigits_all_digits m a (by rw [hA]; exact List.mem_cons_self a A2)
  have hneg : ('-' :: (natDigits m ++ rest)).head? = some '-' := rfl
  have hdl : digitsLoop (a :: (A2 ++ rest)) 0 0 = (m, A2.length + 1, rest) := by
    have h1 := digitsLoop_natDigits m rest 0 0
    rw [digitsLoop_stop rest _ _ (numStop_not_digit hstop)] at h1
    rw [hA] at h1
    simp only [List.cons_append] at h1
    simpa using h1
  unfold parseNumber
  simp only [if_pos hneg]
  rw [List.tail_cons, hA]
  simp only [List.cons_append]
  rw [haDigit]
  simp only [if_true]
  simp only [List.head?_cons, Option.some.injEq]
  by_cases hm : m = 0
  · have hA0 : a = '0' ∧ A2 = [] := by
      rw [hm, natDigits_zero] at hA
      have h1 := List.cons.inj hA.symm
      exact ⟨h1.1, h1.2⟩
    obtain ⟨ha0a, ha0A⟩ := hA0
    rw [if_pos ha0a]
    dsimp only
    rw [ha0A]
    simp only [List.nil_append, List.tail_cons]
    rw [if_neg (numStop_not_dot hstop)]
    dsimp only
    rw [if_neg (numStop_not_e hstop)]
    dsimp only
    rw [if_pos (by omega : (0 : Int) ≤ 0 - (0 : Nat))]
    rw [hm]
    norm_num
  · have ha0 : ¬(a = '0') := by
      have := natDigits_head_ne_zero m (by omega) a (by rw [hA]; rfl)
      exact this
    rw [if_neg ha0]
    rw [hdl]
    dsimp only
    rw [if_neg (numStop_not_dot hstop)]
    dsimp only
    rw [if_neg (numStop_not_e hstop)]
    dsimp only
    rw [if_pos (by omega : (0 : Int) ≤ 0 - (0 : Nat))]
    norm_num

theorem parseNumber_intDigits (n : Int) (rest : List Char) (hstop : numStop rest) :
    parseNumber (intDigits n ++ rest) = some ((n : ℚ), rest) := by
  unfold intDigits
  by_cases hn : n < 0
  · rw [if_pos hn, List.cons_append, parseNumber_neg_natDigits n.natAbs rest hstop]
    have h2 : (n.natAbs : Int) = -n := by omega
    have hq : (((n.natAbs : Int)) : ℚ) = -(n : ℚ) := by
      rw [h2]
      push_cast
      ring
    rw [hq, neg_neg]
  · rw [if_neg hn, parseNumber_natDigits n.natAbs rest hstop]
    have h2 : (n.natAbs : Int) = n := by omega
    have hq : ((n.natAbs : Nat) : ℚ) = (n : ℚ) := by
      have h3 : (((n.natAbs : Nat) : Int) : ℚ) = ((n.natAbs : Nat) : ℚ) :=
        Int.cast_natCast n.natAbs
      rw [← h3, h2]
    rw [hq]

/-! ### JSON string escaping inverts -/

theorem parseHexDigit_hexDigitChar (m : Nat) (h : m < 16) :
    parseHexDigit (hexDigitChar m) = some m := by
  have hall : ∀ i : Fin 16, parseHexDigit (hexDigitChar i.val) = some i.val := by decide
  have := hall ⟨m, h⟩
  simpa using this

theorem strLoopAux_escapeChar (c : Char) (R : List Char) (fuel : Nat) :
    strLoopAux (fuel + 1) (escapeChar c ++ R) =
      (strLoopAux fuel R).map (fun p => (c :: p.1, p.2)) := by
  have hofn : Char.ofNat c.toNat = c := Char.ofNat_toNat c
  by_cases h1 : c = '"'
  · subst h1; rfl
  · by_cases h2 : c = '\\'
    · subst h2; rfl
    · by_cases h3 : c = Char.ofNat 8
      · subst h3; rfl
      · by_cases h4 : c = Char.ofNat 9
        · subst h4; rfl
        · by_cases h5 : c = Char.ofNat 10
          · subst h5; rfl
          · by_cases h6 : c = Char.ofNat 12
            · subst h6; rfl
            · by_cases h7 : c = Char.ofNat 13
              · subst h7; rfl
              · have he : escapeChar c =
                    (if c.toNat < 32 then
                      ['\\', 'u', '0', '0', hexDigitChar (c.toNat / 16), hexDigitChar (c.toNat % 16)]
                     else [c]) := by
                  unfold escapeChar
                  rw [if_neg h1, if_neg h2, if_neg h3, if_neg h4, if_neg h5, if_neg h6, if_neg h7]
                rw [he]
                by_cases h8 : c.toNat < 32
                · rw [if_pos h8]
                  show strLoopAux (fuel + 1)
                      ('\\' :: 'u' :: '0' :: '0' :: hexDigitChar (c.toNat / 16) ::
                        hexDigitChar (c.toNat % 16) :: R) = _
                  conv_lhs => unfold strLoopAux
                  rw [if_neg (by decide), if_pos (by decide : ('\\' : Char) = '\\')]
                  dsimp only
                  rw [if_neg (by simp)]
                  have g0 : ('u' :: '0' :: '0' :: hexDigitChar (c.toNat / 16) ::
                      hexDigitChar (c.toNat % 16) :: R).getD 0 '0' = 'u' := rfl
                  have g1 : ('u' :: '0' :: '0' :: hexDigitChar (c.toNat / 16) ::
                      hexDigitChar (c.toNat % 16) :: R).getD 1 '0' = '0' := rfl
                  have g2 : ('u' :: '0' :: '0' :: hexDigitChar (c.toNat / 16) ::
                      hexDigitChar (c.toNat % 16) :: R).getD 2 '0' = '0' := rfl
                  have g3 : ('u' :: '0' :: '0' :: hexDigitChar (c.toNat / 16) ::
                      hexDigitChar (c.toNat % 16) :: R).getD 3 '0' =
                      hexDigitChar (c.toNat / 16) := rfl
                  have g4 : ('u' :: '0' :: '0' :: hexDigitChar (c.toNat / 16) ::
                      hexDigitChar (c.toNat % 16) :: R).getD 4 '0' =
                      hexDigitChar (c.toNat % 16) := rfl
                  have gdrop : List.drop 5 ('u' :: '0' :: '0' :: hexDigitChar (c.toNat / 16) ::
                      hexDigitChar (c.toNat % 16) :: R) = R := rfl
                  rw [g0, g1, g2, g3, g4, gdrop]
                  rw [if_pos rfl, if_neg (by simp)]
                  have hx0 : parseHexDigit '0' = some 0 := by decide
                  have hh1 := parseHexDigit_hexDigitChar (c.toNat / 16) (by omega)
                  have hh2 := parseHexDigit_hexDigitChar (c.toNat % 16) (by omega)
                  rw [hx0, hh1, hh2]
                  dsimp only
                  have e : 0 * 4096 + 0 * 256 + c.toNat / 16 * 16 + c.toNat % 16 = c.toNat := by
                    omega
                  rw [e]
                  rw [if_pos (Or.inl (by omega : c.toNat < 55296))]
                  rw [hofn]
                · rw [if_neg h8]
                  show strLoopAux (fuel + 1) (c :: R) = _
                  conv_lhs => unfold strLoopAux
                  rw [if_neg h1, if_neg h2, if_neg h8]

theorem strLoopAux_escape (cs : List Char) : ∀ (rest : List Char) (fuel : Nat),
    strLoopAux (cs.length + (fuel + 1)) (cs.flatMap escapeChar ++ '"' :: rest) =
      some (cs, rest) := by
  induction cs with
  | nil =>
    intro rest fuel
    show strLoopAux (0 + (fuel + 1)) ('"' :: rest) = some ([], rest)
    rw [Nat.zero_add]
    conv_lhs => unfold strLoopAux
    rw [if_pos rfl]
  | cons c t ih =>
    intro rest fuel
    show strLoopAux (t.length + 1 + (fuel + 1))
        ((escapeChar c ++ t.flatMap escapeChar) ++ '"' :: rest) = some (c :: t, rest)
    rw [List.append_assoc]
    have hf : t.length + 1 + (fuel + 1) = (t.length + (fuel + 1)) + 1 := by omega
    rw [hf, strLoopAux_escapeChar, ih rest fuel]
    rfl

theorem escapeChar_length_pos (c : Char) : 1 ≤ (escapeChar c).length := by
  unfold escapeChar
  repeat' split
  all_goals simp

theorem flatMap_escapeChar_length_ge (cs : List Char) :
    cs.length ≤ (cs.flatMap escapeChar).length := by
  induction cs with
  | nil => simp
  | cons c t ih =>
    rw [List.flatMap_cons, List.length_append, List.length_cons]
    have := escapeChar_length_pos c
    omega

theorem parseString_escape (v : String) (R : List Char) :
    parseString (escapeString v ++ R) = some (v, R) := by
  have he : escapeString v ++ R = '"' :: (v.data.flatMap escapeChar ++ ('"' :: R)) := by
    unfold escapeString
    simp
  rw [he]
  unfold parseString
  simp only [List.head?_cons, Option.some.injEq, if_true]
  rw [List.tail_cons]
  have hlen : (v.data.flatMap escapeChar ++ '"' :: R).length =
      v.data.length + ((v.data.flatMap escapeChar).length - v.data.length + R.length + 1) := by
    rw [List.length_append, List.length_cons]
    have := flatMap_escapeChar_length_ge v.data
    omega
  unfold strLoop
  rw [hlen, strLoopAux_escape v.data R
        ((v.data.flatMap escapeChar).length - v.data.length + R.length)]
  rfl

/-! ### parseValue on printed cursor components -/

theorem skipWs_cons_of_not_ws (c : Char) (cs : List Char) (h : isJsonWs c = false) :
    skipWs (c :: cs) = c :: cs := by
  unfold skipWs
  rw [List.dropWhile_cons, h]
  simp

theorem parseValue_escapeString (f : Nat) (v : String) (rest : List Char) :
    parseValue (f + 1) (escapeString v ++ rest) = some (Json.str v, rest) := by
  have he : escapeString v ++ rest = '"' :: (v.data.flatMap escapeChar ++ ('"' :: rest)) := by
    unfold escapeString
    simp
  rw [he]
  conv_lhs => unfold parseValue
  rw [skipWs_cons_of_not_ws _ _ (by decide)]
  dsimp only
  rw [if_neg (by decide), if_neg (by decide), if_pos rfl]
  rw [← he, parseString_escape]
  rfl

theorem parseValue_intDigits (f : Nat) (n : Int) (rest : List Char) (hstop : numStop rest) :
    parseValue (f + 1) (intDigits n ++ rest) = some (Json.num (n : ℚ), rest) := by
  have hhead : ∃ a T, intDigits n ++ rest = a :: T ∧ isJsonWs a = false ∧
      ¬(a = '{') ∧ ¬(a = '[') ∧ ¬(a = '"') ∧ ¬(a = 't') ∧ ¬(a = 'f') ∧ ¬(a = 'n') := by
    unfold intDigits
    by_cases hn : n < 0
    · rw [if_pos hn, List.cons_append]
      exact ⟨'-', _, rfl, by decide, by decide, by decide, by decide, by decide, by decide,
        by decide⟩
    · rw [if_neg hn]
      obtain ⟨a, A2, hA⟩ := List.exists_cons_of_ne_nil (natDigits_ne_nil n.natAbs)
      have haDigit : isDigitChar a = true :=
        natDigits_all_digits n.natAbs a (by rw [hA]; exact List.mem_cons_self a A2)
      refine ⟨a, A2 ++ rest, by rw [hA, List.cons_append], ?_, ?_, ?_, ?_, ?_, ?_, ?_⟩
      · unfold isJsonWs
        simp only [Bool.or_eq_false_iff, beq_eq_false_iff_ne, ne_eq]
        refine ⟨⟨⟨?_, ?_⟩, ?_⟩, ?_⟩ <;>
          (intro hcon; rw [hcon] at haDigit; exact absurd haDigit (by decide))
      all_goals (intro hcon; rw [hcon] at haDigit; exact absurd haDigit (by decide))
  obtain ⟨a, T, hT, hws, h1, h2, h3, h4, h5, h6⟩ := hhead
  rw [hT]
  conv_lhs => unfold parseValue
  rw [skipWs_cons_of_not_ws _ _ hws]
  dsimp only
  rw [if_neg h1, if_neg h2, if_neg h3, if_neg h4, if_neg h5, if_neg h6]
  rw [← hT, parseNumber_intDigits n rest hstop]
  rfl

theorem escapeString_eq_cons (k : String) (R : List Char) :
    escapeString k ++ R = '"' :: (k.data.flatMap escapeChar ++ ('"' :: R)) := by
  unfold escapeString
  simp

theorem skipWs_escapeString (k : String) (R : List Char) :
    skipWs (escapeString k ++ R) = escapeString k ++ R := by
  rw [escapeString_eq_cons, skipWs_cons_of_not_ws _ _ (by decide)]

theorem numStop_comma (Y : List Char) : numStop (',' :: Y) := by
  intro c hc
  simp at hc
  rw [← hc]
  exact ⟨by decide, by decide, by decide, by decide⟩

theorem numStop_rbrace (Y : List Char) : numStop ('}' :: Y) := by
  intro c hc
  simp at hc
  rw [← hc]
  exact ⟨by decide, by decide, by decide, by decide⟩

theorem parseMembers_last (f : Nat) (k v : String) (rest : List Char) :
    parseMembers (f + 2) (escapeString k ++ (':' :: (escapeString v ++ ('}' :: rest)))) =
      some ([(k, Json.str v)], rest) := by
  conv_lhs => unfold parseMembers
  rw [skipWs_escapeString, parseString_escape k (':' :: (escapeString v ++ ('}' :: rest)))]
  dsimp only
  rw [skipWs_cons_of_not_ws _ _ (by decide)]
  simp only [List.head?_cons, Option.some.injEq, if_true, List.tail_cons]
  rw [parseValue_escapeString (f := f) v ('}' :: rest)]
  dsimp only
  rw [skipWs_cons_of_not_ws _ _ (by decide)]
  simp only [List.head?_cons, Option.some.injEq]
  simp

theorem parseMembers_cursor (f : Nat) (k1 : String) (n : Int) (k2 v : String)
    (rest : List Char) :
    parseMembers (f + 3) (escapeString k1 ++ (':' ::
      (intDigits n ++ (',' :: (escapeString k2 ++ (':' :: (escapeString v ++ ('}' :: rest)))))))) =
      some ([(k1, Json.num (n : ℚ)), (k2, Json.str v)], rest) := by
  conv_lhs => unfold parseMembers
  rw [skipWs_escapeString, parseString_escape]
  dsimp only
  rw [skipWs_cons_of_not_ws _ _ (by decide)]
  simp only [List.head?_cons, Option.some.injEq, if_true, List.tail_cons]
  rw [parseValue_intDigits (f + 1) n _ (numStop_comma _)]
  dsimp only
  rw [skipWs_cons_of_not_ws _ _ (by decide)]
  simp only [List.head?_cons, Option.some.injEq, if_true, List.tail_cons]
  rw [parseMembers_last f k2 v rest]
  rfl

theorem printNumQ_intCast (n : Int) : printNumQ ((n : Int) : ℚ) = intDigits n := by
  unfold printNumQ
  rw [if_pos (Rat.den_intCast n), Rat.num_intCast]

theorem jsonPrint_cursorJson (n : Int) (id : String) (rest : List Char) :
    jsonPrint (cursorJson n id) ++ rest = '{' :: (escapeString "sortAt" ++ (':' ::
      (intDigits n ++ (',' :: (escapeString "id" ++ (':' ::
        (escapeString id ++ ('}' :: rest)))))))) := by
  have h1 : jsonPrint (cursorJson n id) =
      '{' :: printMembers [("sortAt", Json.num ((n : Int) : ℚ)), ("id", Json.str id)] ++ ['}'] :=
    rfl
  have h2 : printMembers [("sortAt", Json.num ((n : Int) : ℚ)), ("id", Json.str id)] =
      escapeString "sortAt" ++ ':' :: jsonPrint (Json.num ((n : Int) : ℚ)) ++
        ',' :: printMembers [("id", Json.str id)] := rfl
  have h3 : printMembers [("id", Json.str id)] =
      escapeString "id" ++ ':' :: jsonPrint (Json.str id) := rfl
  have h4 : jsonPrint (Json.num ((n : Int) : ℚ)) = printNumQ ((n : Int) : ℚ) := rfl
  have h5 : jsonPrint (Json.str id) = escapeString id := rfl
  rw [h1, h2, h3, h4, h5, printNumQ_intCast]
  simp [List.append_assoc]

theorem parseValue_cursorJson (f : Nat) (n : Int) (id : String) (rest : List Char) :
    parseValue (f + 4) (jsonPrint (cursorJson n id) ++ rest) =
      some (cursorJson n id, rest) := by
  rw [jsonPrint_cursorJson]
  conv_lhs => unfold parseValue
  rw [skipWs_cons_of_not_ws _ _ (by decide)]
  dsimp only
  rw [if_pos rfl]
  rw [skipWs_escapeString]
  have hne : ¬((escapeString "sortAt" ++ (':' :: (intDigits n ++ (',' ::
      (escapeString "id" ++ (':' :: (escapeString id ++ ('}' :: rest)))))))).head? =
      some '}') := by
    rw [escapeString_eq_cons]
    simp
  rw [if_neg hne]
  rw [parseMembers_cursor f "sortAt" n "id" id rest]
  rfl

theorem jsonPrint_cursorJson_len (n : Int) (id : String) :
    3 ≤ (jsonPrint (cursorJson n id)).length := by
  have h := jsonPrint_cursorJson n id []
  rw [List.append_nil] at h
  rw [h]
  simp
  omega

theorem jsonParse_print_cursor (n : Int) (id : String) :
    jsonParse (String.mk (jsonPrint (cursorJson n id))) = some (cursorJson n id) := by
  unfold jsonParse
  have hd : (String.mk (jsonPrint (cursorJson n id))).data = jsonPrint (cursorJson n id) := rfl
  rw [hd]
  have hlen := jsonPrint_cursorJson_len n id
  have hf : (jsonPrint (cursorJson n id)).length + 1 =
      ((jsonPrint (cursorJson n id)).length - 3) + 4 := by omega
  rw [hf]
  have hpv := parseValue_cursorJson ((jsonPrint (cursorJson n id)).length - 3) n id []
  rw [List.append_nil] at hpv
  rw [hpv]
  rfl

/-! ### The cursor codec round trip -/

theorem utf8EncodeChar_lt_256 (c : Char) : ∀ b ∈ utf8EncodeChar c, b < 256 := by
  have hval := char_toNat_valid c
  unfold utf8EncodeChar
  dsimp only
  by_cases h1 : c.toNat < 128
  · rw [if_pos h1]
    intro b hb
    simp at hb
    omega
  · rw [if_neg h1]
    by_cases h2 : c.toNat < 2048
    · rw [if_pos h2]
      intro b hb
      simp at hb
      rcases hb with hb | hb <;> omega
    · rw [if_neg h2]
      by_cases h3 : c.toNat < 65536
      · rw [if_pos h3]
        intro b hb
        simp at hb
        rcases hb with hb | hb | hb <;> omega
      · rw [if_neg h3]
        intro b hb
        simp at hb
        have hcap : c.toNat < 1114112 := by
          rcases hval with hval | hval
          · omega
          · exact hval.2
        rcases hb with hb | hb | hb | hb <;> omega

theorem utf8Encode_lt_256 (cs : List Char) : ∀ b ∈ utf8Encode cs, b < 256 := by
  intro b hb
  unfold utf8Encode at hb
  rw [List.mem_flatMap] at hb
  obtain ⟨c, _, hbc⟩ := hb
  exact utf8EncodeChar_lt_256 c b hbc

theorem b64Core_ne_nil (bs : List Nat) (h : bs ≠ []) : b64Core bs ≠ [] := by
  induction bs using b64Core.induct with
  | case1 => exact absurd rfl h
  | case2 a => simp [b64Core]
  | case3 a b => simp [b64Core]
  | case4 a b c rest ih => simp [b64Core]

theorem base64Encode_ne_nil (bs : List Nat) (h : bs ≠ []) : base64Encode bs ≠ [] := by
  unfold base64Encode
  intro hcon
  rcases List.append_eq_nil.mp hcon with ⟨h1, _⟩
  exact b64Core_ne_nil bs h h1

theorem jsTrunc_intCast (n : Int) : jsTrunc ((n : Int) : ℚ) = n := by
  unfold jsTrunc
  rw [Rat.num_intCast, Rat.den_intCast]
  simp

theorem cursorFields_cursorJson (n : Int) (id : String) :
    cursorFields (some (cursorJson n id)) = (some n, some id) := by
  unfold cursorFields cursorJson jsGetField
  dsimp only
  simp only [List.filter, if_true]
  have e1 : (("id" : String) == "sortAt") = false := by decide
  have e2 : (("sortAt" : String) == "id") = false := by decide
  rw [e1, e2]
  simp [jsTrunc_intCast]

theorem decodeCursor_encodeCursor (n : Int) (id : String) :
    decodeCursor (some (encodeCursor (cursorJson n id))) = some (cursorJson n id) := by
  have hjn : jsonPrint (cursorJson n id) ≠ [] := by
    have h := jsonPrint_cursorJson n id []
    rw [List.append_nil] at h
    rw [h]
    simp
  have hun : utf8Encode (jsonPrint (cursorJson n id)) ≠ [] := by
    intro hcon
    have h2 := utf8Encode_length_ge (jsonPrint (cursorJson n id))
    rw [hcon] at h2
    simp at h2
    exact hjn h2
  have hne : ¬(encodeCursor (cursorJson n id) = "") := by
    unfold encodeCursor
    intro hcon
    have hdata := congrArg String.data hcon
    simp only at hdata
    exact base64Encode_ne_nil _ hun hdata
  unfold decodeCursor
  dsimp only
  rw [if_neg hne]
  unfold encodeCursor
  rw [base64_roundtrip (utf8Encode_lt_256 (jsonPrint (cursorJson n id)))]
  rw [Option.some_bind, utf8Decode_encode]
  rw [Option.some_bind]
  exact jsonParse_print_cursor n id

theorem listOp_listCursor_none (st : Option String) (lim : Option Int) (cur : Option String)
    (s : Store) (h : listCursor cur = none) : listOp st lim cur s = listOp st lim none s := by
  unfold listOp
  rw [h]
  have h0 : listCursor none = none := rfl
  rw [h0]

/-- C8 counterexample: the cursor encoding the object with the finite
non-integer sortAt 1.5 does not decode to the shape (integer sortAt,
string id), yet /list does not treat it as absent: Math.trunc turns it
into the keyset pair (1, "a"). -/
theorem c8_counterexample_fractional_cursor :
    (mkRat 3 2).den ≠ 1 ∧
    encodeCursor (Json.obj [("sortAt", Json.num (mkRat 3 2)), ("id", Json.str "a")]) =
      "eyJzb3J0QXQiOjEuNSwiaWQiOiJhIn0=" ∧
    cursorFields (decodeCursor (some "eyJzb3J0QXQiOjEuNSwiaWQiOiJhIn0=")) =
      (some 1, some "a") ∧
    listCursor (some "eyJzb3J0QXQiOjEuNSwiaWQiOiJhIn0=") = some (1, "a") :=
  ⟨by decide, by decide, by decide, by decide⟩

/-- C8 (amended): encode/decode of a cursor built from an integer sortAt
and a string id is the identity on the pair, and any cursor that the
/list handler rejects (listCursor = none) behaves exactly as an absent
cursor; but a cursor whose sortAt is a finite non-integer number is NOT
rejected - it is truncated toward zero and used (see the
counterexample). -/
theorem c8_amended_cursor_roundtrip :
    (∀ (n : Int) (id : String),
      cursorFields (decodeCursor (some (encodeCursor (cursorJson n id)))) =
        (some n, some id)) ∧
    (∀ (st : Option String) (lim : Option Int) (cur : Option String) (s : Store),
      listCursor cur = none → listOp st lim cur s = listOp st lim none s) := by
  constructor
  · intro n id
    rw [decodeCursor_encodeCursor, cursorFields_cursorJson]
  · intro st lim cur s h
    exact listOp_listCursor_none st lim cur s h

/-- Witness for the C8 amended theorem at concrete inputs. -/
theorem c8_amended_cursor_roundtrip_witness :
    cursorFields (decodeCursor (some (encodeCursor (cursorJson 12345 "abc")))) =
      (some 12345, some "abc") ∧
    listCursor (some "x") = none ∧
    listOp none none (some "x") [] = listOp none none none [] :=
  ⟨c8_amended_cursor_roundtrip.1 12345 "abc", by decide,
    c8_amended_cursor_roundtrip.2 none none (some "x") [] (by decide)⟩

/-! ### /list pagination machinery (C7) -/

theorem pairwise_strict_of_sorted (l : List JobRow)
    (hs : List.Pairwise (fun a b => pageLe a b = true) l)
    (hk : (l.map rowKey).Nodup) :
    List.Pairwise (fun a b => keyLtb (rowKey b) (rowKey a) = true) l := by
  have hner : List.Pairwise (fun a b => rowKey a ≠ rowKey b) l := List.pairwise_map.mp hk
  have hand := hs.and hner
  refine hand.imp ?_
  intro a b hab
  obtain ⟨hpl, hne⟩ := hab
  have h1 : keyLtb (rowKey a) (rowKey b) = false := by
    unfold pageLe at hpl
    simpa using hpl
  cases h2 : keyLtb (rowKey b) (rowKey a) with
  | true => rfl
  | false => exact absurd (keyLtb_conn h1 h2) hne

theorem sorted_strict_eq_of_perm (l1 l2 : List JobRow) (hp : l1.Perm l2)
    (h1 : List.Pairwise (fun a b => keyLtb (rowKey b) (rowKey a) = true) l1)
    (h2 : List.Pairwise (fun a b => keyLtb (rowKey b) (rowKey a) = true) l2) : l1 = l2 := by
  haveI : IsAntisymm JobRow (fun a b => keyLtb (rowKey b) (rowKey a) = true) := ⟨by
    intro a b hab hba
    have := keyLtb_asymm hab
    rw [this] at hba
    cases hba⟩
  exact List.eq_of_perm_of_sorted hp h1 h2

theorem filter_keyLt_of_decomp (P B : List JobRow) (j : JobRow)
    (hs : List.Pairwise (fun a b => keyLtb (rowKey b) (rowKey a) = true) (P ++ j :: B)) :
    (P ++ j :: B).filter (fun x => keyLtb (rowKey x) (rowKey j)) = B := by
  rw [List.pairwise_append] at hs
  obtain ⟨hsP, hsJB, hcross⟩ := hs
  rcases List.pairwise_cons.mp hsJB with ⟨hjB, hsB⟩
  rw [List.filter_append, List.filter_cons]
  rw [keyLtb_irrefl]
  simp only [Bool.false_eq_true, if_false]
  have hP : List.filter (fun x => keyLtb (rowKey x) (rowKey j)) P = [] := by
    rw [List.filter_eq_nil_iff]
    intro x hx
    have h1 := hcross x hx j (List.mem_cons_self j B)
    have h2 := keyLtb_asymm h1
    simp [h2]
  have hB : List.filter (fun x => keyLtb (rowKey x) (rowKey j)) B = B := by
    rw [List.filter_eq_self]
    intro x hx
    exact hjB x hx
  rw [hP, hB, List.nil_append]

theorem filter_keysetB_eq (l : List JobRow) (v : Int) (cid : String)
    (hall : ∀ x ∈ l, x.sortAt ≠ none) :
    l.filter (keysetB v cid) = l.filter (fun x => keyLtb (rowKey x) (some v, cid)) := by
  apply List.filter_congr
  intro x hx
  cases hxs : x.sortAt with
  | none => exact absurd hxs (hall x hx)
  | some w =>
    unfold keysetB rowKey
    rw [hxs]
    rfl

theorem listCursor_encode (v : Int) (id0 : String) (h : ¬(id0 = "")) :
    listCursor (some (encodeCursor (cursorJson v id0))) = some (v, id0) := by
  unfold listCursor
  rw [decodeCursor_encodeCursor, cursorFields_cursorJson]
  dsimp only
  rw [if_neg h]

theorem clampIntFromString_default : clampIntFromString none 50 1 200 = 50 := by decide

theorem clampIntFromString_bounds (v : Int) :
    1 ≤ clampIntFromString (some v) 50 1 200 ∧ clampIntFromString (some v) 50 1 200 ≤ 200 := by
  unfold clampIntFromString
  constructor
  · exact le_max_left 1 _
  · refine max_le (by norm_num) ?_
    exact le_trans (min_le_left _ _) (by norm_num)

theorem clampIntFromString_id (v : Int) (h1 : 1 ≤ v) (h2 : v ≤ 200) :
    clampIntFromString (some v) 50 1 200 = v := by
  unfold clampIntFromString
  simp only [Option.getD_some]
  rw [min_eq_right h2, max_eq_right h1]

theorem listBase_subset (st : Option String) (s : Store) :
    ∀ x ∈ listBase st s, x ∈ s := by
  intro x hx
  unfold listBase at hx
  revert hx
  cases normalizeStatus st with
  | none => exact fun hx => hx
  | some stv => exact fun hx => List.mem_of_mem_filter hx

theorem listBase_ids_nodup (st : Option String) {s : Store} (hg : GoodStore s) :
    ((listBase st s).map (fun j => j.id)).Nodup := by
  unfold listBase
  cases normalizeStatus st with
  | none => exact hg.1
  | some stv =>
    have hsub : (s.filter (fun j => j.status == stv)).Sublist s := List.filter_sublist s
    exact (hsub.map (fun j => j.id)).nodup hg.1

theorem keys_nodup_of_ids_nodup {l : List JobRow}
    (h : (l.map (fun j => j.id)).Nodup) : (l.map rowKey).Nodup := by
  have h2 : ((l.map rowKey).map Prod.snd).Nodup := by
    rw [List.map_map]
    have he : (Prod.snd ∘ rowKey) = fun j => j.id := by
      funext j
      rfl
    rw [he]
    exact h
  exact h2.of_map Prod.snd

theorem sortByLe_filter_eq (base : Store)
    (hk : (base.map rowKey).Nodup) (p : JobRow → Bool) :
    sortByLe pageLe (base.filter p) = (sortByLe pageLe base).filter p := by
  apply sorted_strict_eq_of_perm
  · exact (sortByLe_perm pageLe _).trans ((sortByLe_perm pageLe base).filter p).symm
  · apply pairwise_strict_of_sorted
    · exact sortByLe_sorted pageLe pageLe_trans pageLe_total _
    · have hsub : (base.filter p).Sublist base := List.filter_sublist base
      have h1 : ((base.filter p).map rowKey).Sublist (base.map rowKey) := hsub.map rowKey
      have h2 : ((base.filter p).map rowKey).Nodup := h1.nodup hk
      have h3 := (sortByLe_perm pageLe (base.filter p)).map rowKey
      exact h3.nodup_iff.mpr h2
  · apply List.Pairwise.filter
    apply pairwise_strict_of_sorted
    · exact sortByLe_sorted pageLe pageLe_trans pageLe_total base
    · have h3 := (sortByLe_perm pageLe base).map rowKey
      exact h3.nodup_iff.mpr hk

theorem clampIntFromString_ge_one (lim : Option Int) :
    1 ≤ clampIntFromString lim 50 1 200 := by
  unfold clampIntFromString
  exact le_max_left 1 _

theorem listOp_snd (st : Option String) (lim : Option Int) (cur : Option String) (s : Store) :
    (listOp st lim cur s).2 =
      Resp.listOut
        ((sortByLe pageLe (match listCursor cur with
          | some c => (listBase st s).filter (keysetB c.1 c.2)
          | none => listBase st s)).take (clampIntFromString lim 50 1 200).toNat)
        (match ((sortByLe pageLe (match listCursor cur with
          | some c => (listBase st s).filter (keysetB c.1 c.2)
          | none => listBase st s)).take (clampIntFromString lim 50 1 200).toNat).getLast? with
         | none => none
         | some last => some (encodeCursor (cursorJson
             (last.sortAt.getD (last.updatedAt.getD last.createdAt)) last.id))) := rfl

theorem listPages_suffix (s : Store) (hg : GoodStore s) (st : Option String) (lim : Option Int) :
    ∀ (fuel : Nat) (R : List JobRow) (cur : Option String),
    sortByLe pageLe (match listCursor cur with
      | some c => (listBase st s).filter (keysetB c.1 c.2)
      | none => listBase st s) = R →
    (∃ P, sortByLe pageLe (listBase st s) = P ++ R) →
    R.length + 1 ≤ fuel →
    listPages s st lim fuel cur = R := by
  intro fuel
  induction fuel with
  | zero => intro R cur _ _ hfl; omega
  | succ f ih =>
    intro R cur hR hsuf hfl
    obtain ⟨P, hP⟩ := hsuf
    have hLsorted : List.Pairwise (fun a b => pageLe a b = true)
        (sortByLe pageLe (listBase st s)) :=
      sortByLe_sorted pageLe pageLe_trans pageLe_total _
    have hknodup : ((listBase st s).map rowKey).Nodup :=
      keys_nodup_of_ids_nodup (listBase_ids_nodup st hg)
    have hLknodup : ((sortByLe pageLe (listBase st s)).map rowKey).Nodup :=
      ((sortByLe_perm pageLe (listBase st s)).map rowKey).nodup_iff.mpr hknodup
    have hLstrict : List.Pairwise (fun a b => keyLtb (rowKey b) (rowKey a) = true)
        (sortByLe pageLe (listBase st s)) :=
      pairwise_strict_of_sorted _ hLsorted hLknodup
    conv_lhs => unfold listPages
    rw [applyReq_list_eq hg st lim cur, listOp_snd, hR]
    dsimp only
    by_cases hRnil : R = []
    · subst hRnil
      simp
    · have hn1 : 1 ≤ (clampIntFromString lim 50 1 200).toNat := by
        have := clampIntFromString_ge_one lim
        omega
      set n := (clampIntFromString lim 50 1 200).toNat with hn
      have hrownil : R.take n ≠ [] := by
        intro hcon
        rw [List.take_eq_nil_iff] at hcon
        rcases hcon with hcon | hcon
        · omega
        · exact hRnil hcon
      have hgl : (R.take n).getLast? = some ((R.take n).getLast hrownil) :=
        List.getLast?_eq_getLast _ hrownil
      set j := (R.take n).getLast hrownil with hj
      rw [hgl]
      dsimp only
      have hjmem : j ∈ s := by
        have h1 : j ∈ R.take n := List.getLast_mem hrownil
        have h2 : j ∈ R := List.take_subset n R h1
        have h3 : j ∈ sortByLe pageLe (listBase st s) := by
          rw [hP]
          exact List.mem_append.mpr (Or.inr h2)
        have h4 : j ∈ listBase st s := ((sortByLe_perm pageLe _).mem_iff).mp h3
        exact listBase_subset st s j h4
      obtain ⟨hjso, hjid⟩ := hg.2 j hjmem
      obtain ⟨v, hv⟩ : ∃ v, j.sortAt = some v := by
        cases hx : j.sortAt with
        | none => exact absurd hx hjso
        | some w => exact ⟨w, rfl⟩
      have hgetd : j.sortAt.getD (j.updatedAt.getD j.createdAt) = v := by
        rw [hv]
        rfl
      rw [hgetd]
      have hlc := listCursor_encode v j.id hjid
      have hRd : R = R.take n ++ R.drop n := (List.take_append_drop n R).symm
      have hrowd : R.take n = (R.take n).dropLast ++ [j] :=
        (List.dropLast_append_getLast hrownil).symm
      have hdecomp : sortByLe pageLe (listBase st s) =
          (P ++ (R.take n).dropLast) ++ j :: R.drop n := by
        rw [hP]
        conv_lhs => rw [hRd, hrowd]
        simp [List.append_assoc]
      have hnext : sortByLe pageLe ((listBase st s).filter (keysetB v j.id)) = R.drop n := by
        rw [sortByLe_filter_eq _ hknodup]
        have hfe : (sortByLe pageLe (listBase st s)).filter (keysetB v j.id) =
            (sortByLe pageLe (listBase st s)).filter
              (fun x => keyLtb (rowKey x) (some v, j.id)) := by
          apply filter_keysetB_eq
          intro x hx
          have h4 : x ∈ listBase st s := ((sortByLe_perm pageLe _).mem_iff).mp hx
          exact (hg.2 x (listBase_subset st s x h4)).1
        rw [hfe]
        have hkey : ((some v : Option Int), j.id) = rowKey j := by
          unfold rowKey
          rw [hv]
        rw [hkey, hdecomp]
        exact filter_keyLt_of_decomp _ _ _ (by rw [← hdecomp]; exact hLstrict)
      have harg1 : sortByLe pageLe
          (match listCursor (some (encodeCursor (cursorJson v j.id))) with
            | some c => (listBase st s).filter (keysetB c.1 c.2)
            | none => listBase st s) = R.drop n := by
        rw [hlc]
        exact hnext
      have harg2 : ∃ P2, sortByLe pageLe (listBase st s) = P2 ++ R.drop n := by
        refine ⟨P ++ R.take n, ?_⟩
        rw [hP]
        conv_lhs => rw [hRd]
        rw [List.append_assoc]
      have hfuel2 : (R.drop n).length + 1 ≤ f := by
        have h1 : 1 ≤ (R.take n).length := by
          cases hx : R.take n with
          | nil => exact absurd hx hrownil
          | cons a l => simp
        have h2 := congrArg List.length hRd
        rw [List.length_append] at h2
        omega
      rw [ih (R.drop n) (some (encodeCursor (cursorJson v j.id))) harg1 harg2 hfuel2]
      exact List.take_append_drop n R

theorem listOp_invalid_status (stv : String)
    (h : ¬(stv = "queued" ∨ stv = "processing" ∨ stv = "done" ∨ stv = "failed"))
    (lim : Option Int) (cur : Option String) (s : Store) :
    listOp (some stv) lim cur s = listOp none lim cur s := by
  unfold listOp
  have hns : normalizeStatus (some stv) = none := by
    unfold normalizeStatus
    dsimp only
    by_cases he : stv = ""
    · rw [if_pos he]
    · rw [if_neg he, if_neg h]
  rw [hns]
  rfl

/-- C7: starting from no cursor and following nextCursor until it is
null, /list emits exactly the status-filtered rows, each exactly once,
in strictly descending (sortAt, id) order; the limit is clamped to
[1, 200] with default 50; and a status outside the enum behaves as no
filter. -/
theorem c7_list_pagination (s : Store) (hg : GoodStore s) (st : Option String)
    (lim : Option Int) :
    listPages s st lim (s.length + 2) none = sortByLe pageLe (listBase st s) ∧
    (listPages s st lim (s.length + 2) none).Perm (listBase st s) ∧
    List.Pairwise (fun a b => keyLtb (rowKey b) (rowKey a) = true)
      (listPages s st lim (s.length + 2) none) ∧
    clampIntFromString none 50 1 200 = 50 ∧
    (∀ v : Int, 1 ≤ clampIntFromString (some v) 50 1 200 ∧
      clampIntFromString (some v) 50 1 200 ≤ 200) ∧
    (∀ v : Int, 1 ≤ v → v ≤ 200 → clampIntFromString (some v) 50 1 200 = v) ∧
    (∀ stv : String,
      ¬(stv = "queued" ∨ stv = "processing" ∨ stv = "done" ∨ stv = "failed") →
      ∀ cur : Option String, listOp (some stv) lim cur s = listOp none lim cur s) := by
  have hlen : (sortByLe pageLe (listBase st s)).length ≤ s.length := by
    rw [(sortByLe_perm pageLe (listBase st s)).length_eq]
    unfold listBase
    cases normalizeStatus st with
    | none => exact le_refl _
    | some stv => exact List.length_filter_le _ s
  have hmain : listPages s st lim (s.length + 2) none = sortByLe pageLe (listBase st s) := by
    apply listPages_suffix s hg st lim (s.length + 2) (sortByLe pageLe (listBase st s)) none
    · rfl
    · exact ⟨[], by simp⟩
    · omega
  refine ⟨hmain, ?_, ?_, clampIntFromString_default, clampIntFromString_bounds,
    clampIntFromString_id, fun stv h cur => listOp_invalid_status stv h lim cur s⟩
  · rw [hmain]
    exact sortByLe_perm pageLe (listBase st s)
  · rw [hmain]
    exact pairwise_strict_of_sorted _
      (sortByLe_sorted pageLe pageLe_trans pageLe_total _)
      (((sortByLe_perm pageLe (listBase st s)).map rowKey).nodup_iff.mpr
        (keys_nodup_of_ids_nodup (listBase_ids_nodup st hg)))

/-- Witness for the C7 theorem at a concrete reachable store. -/
theorem c7_list_pagination_witness :
    GoodStore trace1 ∧
    listPages trace1 (some "done") none (trace1.length + 2) none =
      sortByLe pageLe (listBase (some "done") trace1) :=
  ⟨⟨by decide, by decide⟩,
    (c7_list_pagination trace1 ⟨by decide, by decide⟩ (some "done") none).1⟩

end RankPublic